import Mathlib

/-!
# Shallow embedding of the in-toto-golang trust-verification core

This file embeds the repository's three source files (the Metablock
metadata model, the prototype canonical JSON encoder, and the
key/signature library of `package in_toto`) as executable Lean
definitions and proves theorems about them.

Conventions of the embedding:

* Go byte slices are `List Nat` (each element a byte value `< 256`;
  range hypotheses are stated where a lemma needs them).
* Go strings are Lean `String`s; the data handled by this code (PEM
  text, hex strings, JSON identifiers) is ASCII, where Lean characters
  and Go bytes coincide, and byte-wise lexicographic comparison of
  UTF-8 strings coincides with the code-point comparison used here.
* Go errors are the inductive `GoError`; `fmt.Errorf("%w: ...", e, d)`
  becomes `GoError.wrap e d`, and `errors.Is` becomes `errorIs`.
* Functions from the Go standard library and `golang.org/x/crypto`
  that the repository merely calls (PEM decoding, X.509/PKCS parsing,
  the RSA/ECDSA/Ed25519 arithmetic, ASN.1 marshalling) are abstracted
  as the explicit parameter structure `CryptoPrims`; everything the
  repository itself implements (hex encoding and decoding behaviour it
  relies on, canonical encoding, SHA-256 hashing of canonical bytes,
  control flow, error selection) is translated directly.
* Mutating methods (`(k *Key) GenerateKeyId`, `(mb *Metablock) Load`)
  become functions returning the updated value.
-/

/-! ## Characters, whitespace, hex, UTF-8, base64 -/

/-- The six ASCII whitespace byte values `\t \n \v \f \r space`
(the byte values a "contains no whitespace bytes" claim talks about). -/
def isWsChar (c : Char) : Bool :=
  c = ' ' || c = '\t' || c = '\n' || c = '\x0b' || c = '\x0c' || c = '\r'

/-- Go `unicode.IsSpace`: the ASCII whitespace characters plus the
Unicode `White_Space` code points (`strings.TrimSpace` trims these). -/
def goIsSpace (c : Char) : Bool :=
  isWsChar c || c = '\u0085' || c = ' ' || c = ' ' ||
  (0x2000 ≤ c.toNat && c.toNat ≤ 0x200A) || c = ' ' || c = ' ' ||
  c = ' ' || c = ' ' || c = '　'

/-- Go `strings.TrimSpace`: drop leading and trailing whitespace. -/
def goTrimSpace (s : String) : String :=
  ⟨((s.data.dropWhile goIsSpace).reverse.dropWhile goIsSpace).reverse⟩

/-- One hex nibble as a lowercase hex digit character
(Go `encoding/hex` uses the alphabet `0123456789abcdef`). -/
def hexDigitChar (n : Nat) : Char :=
  if n < 10 then Char.ofNat (48 + n) else Char.ofNat (87 + n)

/-- Go `hex.EncodeToString` on a byte slice: two lowercase hex digits
per byte, high nibble first. -/
def hexEncodeStr (bs : List Nat) : String :=
  ⟨bs.flatMap fun b => [hexDigitChar (b / 16 % 16), hexDigitChar (b % 16)]⟩

/-- Go `encoding/hex.fromHexChar`: value of one hex digit character. -/
def fromHexChar (c : Char) : Option Nat :=
  if '0' ≤ c ∧ c ≤ '9' then some (c.toNat - 48)
  else if 'a' ≤ c ∧ c ≤ 'f' then some (c.toNat - 87)
  else if 'A' ≤ c ∧ c ≤ 'F' then some (c.toNat - 55)
  else none

/-- `true` iff every character is a lowercase hex digit. -/
def isLowerHexStr (s : String) : Bool :=
  s.data.all fun c => ('0' ≤ c && c ≤ '9') || ('a' ≤ c && c ≤ 'f')

/-- UTF-8 encoding of one character (the bytes Go appends for a rune). -/
def utf8Bytes (c : Char) : List Nat :=
  let n := c.toNat
  if n < 0x80 then [n]
  else if n < 0x800 then [0xC0 + n / 64, 0x80 + n % 64]
  else if n < 0x10000 then [0xE0 + n / 4096, 0x80 + n / 64 % 64, 0x80 + n % 64]
  else [0xF0 + n / 262144, 0x80 + n / 4096 % 64, 0x80 + n / 64 % 64, 0x80 + n % 64]

/-- Go `[]byte(s)`: the UTF-8 bytes of a string. -/
def strToBytes (s : String) : List Nat :=
  s.data.flatMap utf8Bytes

/-- Go `string(bs)` for the ASCII byte strings handled here (PEM text):
each byte read back as one character. -/
def bytesToStr (bs : List Nat) : String :=
  ⟨bs.map fun b => Char.ofNat b⟩

/-- One character of the standard base64 alphabet (Go `encoding/base64.StdEncoding`). -/
def b64Char (n : Nat) : Char :=
  if n < 26 then Char.ofNat (65 + n)
  else if n < 52 then Char.ofNat (97 + (n - 26))
  else if n < 62 then Char.ofNat (48 + (n - 52))
  else if n = 62 then '+' else '/'

/-- Standard base64 encoding with `=` padding, as used by `encoding/pem`. -/
def b64Encode : List Nat → List Char
  | b1 :: b2 :: b3 :: rest =>
      b64Char (b1 / 4 % 64) :: b64Char ((b1 % 4) * 16 + b2 / 16 % 16) ::
      b64Char ((b2 % 16) * 4 + b3 / 64 % 4) :: b64Char (b3 % 64) :: b64Encode rest
  | [b1, b2] =>
      [b64Char (b1 / 4 % 64), b64Char ((b1 % 4) * 16 + b2 / 16 % 16),
       b64Char ((b2 % 16) * 4), '=']
  | [b1] =>
      [b64Char (b1 / 4 % 64), b64Char ((b1 % 4) * 16), '=', '=']
  | [] => []

/-- Split a character list into lines of at most 64 characters
(`encoding/pem` wraps base64 output at 64 columns); the accumulator
carries the current line in reverse. -/
def chunk64Aux : List Char → List Char → List (List Char)
  | [], acc => if acc = [] then [] else [acc.reverse]
  | c :: rest, acc =>
      if acc.length = 63 then (acc.reverse ++ [c]) :: chunk64Aux rest []
      else chunk64Aux rest (c :: acc)

/-- The 64-column lines of a character list. -/
def chunk64Lines (l : List Char) : List (List Char) :=
  chunk64Aux l []

/-! ## The JSON-like value type and the canonical encoders -/

/-- The JSON-like values the canonical encoder handles: the runtime
types of the Go `interface` switch in `_encode_canonical`
(`string`, `bool`, `int`, `nil`, `[]interface`, `map[string]interface`).
A Go map is represented as its list of entries in insertion order;
faithfulness to a Go map requires the keys to be pairwise distinct,
which appears as a `Nodup` hypothesis where it matters. -/
inductive Value where
  | null : Value
  | bool (b : Bool) : Value
  | int (i : Int) : Value
  | str (s : String) : Value
  | arr (vs : List Value) : Value
  | obj (es : List (String × Value)) : Value

/-- Go map indexing `m[k]` for the entry list of a map: the value of
the first entry with the given key (Go maps cannot actually contain a
missing key when `k` was taken from the map itself; the `.null`
default is unreachable in the encoder below). -/
def lookupVal : List (String × Value) → String → Option Value
  | [], _ => none
  | (a, v) :: t, k => if a = k then some v else lookupVal t k

/-- `m[k]` with the (unreachable) default for a missing key. -/
def lookupD (es : List (String × Value)) (k : String) : Value :=
  (lookupVal es k).getD .null

/-- Byte-wise (code-point-wise) lexicographic "less than" on character
lists: what Go's `sort.Strings` compares (on UTF-8 strings, byte-wise
and code-point-wise lexicographic order agree). -/
def charListLt : List Char → List Char → Bool
  | [], [] => false
  | [], _ :: _ => true
  | _ :: _, [] => false
  | a :: as, b :: bs =>
      a.toNat < b.toNat || (a.toNat = b.toNat && charListLt as bs)

theorem charListLt_irrefl : ∀ l, charListLt l l = false
  | [] => rfl
  | a :: as => by simp [charListLt, charListLt_irrefl as]

theorem charListLt_trans : ∀ a b c, charListLt a b = true → charListLt b c = true →
    charListLt a c = true
  | _, [], [], hab, hbc => by cases hbc
  | [], _ :: _, [], hab, hbc => by cases hbc
  | _ :: _, _ :: _, [], hab, hbc => by cases hbc
  | [], [], _ :: _, hab, hbc => by cases hab
  | [], _ :: _, _ :: _, hab, hbc => rfl
  | a :: as, [], _ :: _, hab, hbc => by cases hab
  | a :: as, b :: bs, c :: cs, hab, hbc => by
      simp only [charListLt, Bool.or_eq_true, Bool.and_eq_true, decide_eq_true_eq] at hab hbc ⊢
      rcases hab with h1 | ⟨h1, h2⟩ <;> rcases hbc with h3 | ⟨h3, h4⟩
      · exact Or.inl (h1.trans h3)
      · exact Or.inl (h3 ▸ h1)
      · exact Or.inl (h1 ▸ h3)
      · exact Or.inr ⟨h1.trans h3, charListLt_trans as bs cs h2 h4⟩

theorem charListLt_connex : ∀ a b, charListLt a b = false → charListLt b a = false → a = b
  | [], [], _, _ => rfl
  | [], _ :: _, hab, _ => by cases hab
  | _ :: _, [], _, hba => by cases hba
  | a :: as, b :: bs, hab, hba => by
      simp only [charListLt, Bool.or_eq_false_iff, Bool.and_eq_false_iff,
        decide_eq_false_iff_not, Nat.not_lt] at hab hba
      have hab2 := hab.2
      have hba2 := hba.2
      have heq : a.toNat = b.toNat := Nat.le_antisymm hba.1 hab.1
      have : a = b := by
        have h1 := congrArg Char.ofNat heq
        rwa [Char.ofNat_toNat, Char.ofNat_toNat] at h1
      subst this
      rcases hab2 with h | h
      · exact absurd rfl h
      · rcases hba2 with h2 | h2
        · exact absurd rfl h2
        · exact congrArg (a :: ·) (charListLt_connex as bs h h2)

theorem charListLt_asymm (a b : List Char) (h : charListLt a b = true) :
    charListLt b a = false := by
  by_contra hc
  have hba : charListLt b a = true := by
    cases hx : charListLt b a
    · exact absurd hx hc
    · rfl
  have := charListLt_trans a b a h hba
  rw [charListLt_irrefl] at this
  cases this

/-- Go's string "less or equal" (the order `sort.Strings` leaves the
keys in): byte-wise lexicographic comparison. -/
def strLeGo (a b : String) : Prop := charListLt b.data a.data = false

/-- Strict byte-wise lexicographic order on strings. -/
def strLtGo (a b : String) : Prop := charListLt a.data b.data = true

instance : DecidableRel strLeGo := fun _ _ => instDecidableEqBool _ _

instance : DecidableRel strLtGo := fun _ _ => instDecidableEqBool _ _

instance : IsTotal String strLeGo where
  total a b := by
    unfold strLeGo
    cases h : charListLt b.data a.data
    · exact Or.inl rfl
    · exact Or.inr (charListLt_asymm _ _ h)

instance : IsTrans String strLeGo where
  trans a b c hab hbc := by
    unfold strLeGo at hab hbc ⊢
    by_contra hc
    have hca : charListLt c.data a.data = true := by
      cases hx : charListLt c.data a.data
      · exact absurd hx hc
      · rfl
    cases hx : charListLt a.data b.data
    · have hdata := charListLt_connex a.data b.data hx hab
      rw [hdata] at hca
      exact absurd hca (by simp [hbc])
    · have := charListLt_trans c.data a.data b.data hca hx
      exact absurd this (by simp [hbc])

instance : IsAntisymm String strLeGo where
  antisymm a b hab hba := by
    have := charListLt_connex a.data b.data hba hab
    exact String.ext this

/-- The comma-joined concatenation both encoders use for sequence and
map bodies: Go writes each part and appends `","` after every part but
the last. -/
def commaJoin : List (List Char) → List Char
  | [] => []
  | [x] => x
  | x :: y :: rest => x ++ ',' :: commaJoin (y :: rest)

/-- `_encode_canonical_string`: double quotes around the string, each
`"` replaced by `\"` (the regexp `([\"])` → `\$1`); no other escaping. -/
def _encode_canonical_string (s : String) : List Char :=
  '"' :: (s.data.flatMap fun c => if c = '"' then ['\\', '"'] else [c]) ++ ['"']

/-- Go's `string(i)` conversion from `int`, as used (mistakenly) by the
`case int` branch of `_encode_canonical`: the UTF-8 string of the code
point `i`, or `"�"` when `i` is not a valid code point. -/
def goStringOfInt (i : Int) : List Char :=
  if 0 ≤ i ∧ (i < 0xD800 ∨ (0xDFFF < i ∧ i < 0x110000)) then
    [Char.ofNat i.toNat]
  else ['�']

/-- Size bound for the value of a map entry, used for termination of
the canonical encoders. -/
theorem sizeOf_lookupD (es : List (String × Value)) (k : String) :
    sizeOf (lookupD es k) < 1 + sizeOf es := by
  induction es with
  | nil => simp [lookupD, lookupVal]
  | cons hd tl ih =>
    obtain ⟨a, v⟩ := hd
    by_cases hak : a = k
    · simp [lookupD, lookupVal, hak]
      omega
    · simp only [lookupD, lookupVal, hak, if_false] at ih ⊢
      simp only [List.cons.sizeOf_spec, Prod.mk.sizeOf_spec]
      omega

/-- `_encode_canonical` (the prototype canonical encoder in the
repository): emits by runtime type —
strings via `_encode_canonical_string`; booleans as `true`/`false`;
integers via Go's `string(int)` conversion (`goStringOfInt` — the code
point, not the decimal digits); `nil` as `null`; sequences as
comma-joined encodings in brackets (comma after every element but the
last, i.e. `List.intercalate`); maps as comma-joined `key:value` pairs
in braces with the key list sorted by `sort.Strings` (byte-wise
lexicographic order) and each value fetched by map indexing.
The `default` branch of the Go switch (print a diagnostic, emit
nothing) is unreachable here because `Value` is closed. -/
def _encode_canonical : Value → List Char
  | .str s => _encode_canonical_string s
  | .bool b => if b then "true".data else "false".data
  | .int i => goStringOfInt i
  | .null => "null".data
  | .arr vs =>
      '[' :: commaJoin (vs.attach.map fun v => _encode_canonical v.1) ++ [']']
  | .obj es =>
      let mapKeys := List.insertionSort strLeGo (es.map Prod.fst)
      '\x7b' :: commaJoin
          (mapKeys.map fun k =>
            _encode_canonical_string k ++ ':' :: _encode_canonical (lookupD es k)) ++ ['\x7d']
termination_by v => sizeOf v
decreasing_by
  · have := List.sizeOf_lt_of_mem v.2
    simp only [Value.arr.sizeOf_spec]
    omega
  · have := sizeOf_lookupD es k
    simp only [Value.obj.sizeOf_spec]
    omega

/-- `EncodeCanonical`.
Modelled from the spec: the canonical encoder used by `package in_toto`
(`GenerateKeyId` calls it) is not among the reviewed source files; this
definition follows the spec's algorithm in §4.1 — identical to the
prototype `_encode_canonical` above except that an integer is emitted
as its decimal ASCII digits (no leading zeros, no exponent, no decimal
point) rather than through Go's `string(int)` conversion. -/
def EncodeCanonical : Value → List Char
  | .str s => _encode_canonical_string s
  | .bool b => if b then "true".data else "false".data
  | .int i => (toString i).data
  | .null => "null".data
  | .arr vs =>
      '[' :: commaJoin (vs.attach.map fun v => EncodeCanonical v.1) ++ [']']
  | .obj es =>
      let mapKeys := List.insertionSort strLeGo (es.map Prod.fst)
      '\x7b' :: commaJoin
          (mapKeys.map fun k =>
            _encode_canonical_string k ++ ':' :: EncodeCanonical (lookupD es k)) ++ ['\x7d']
termination_by v => sizeOf v
decreasing_by
  · have := List.sizeOf_lt_of_mem v.2
    simp only [Value.arr.sizeOf_spec]
    omega
  · have := sizeOf_lookupD es k
    simp only [Value.obj.sizeOf_spec]
    omega

/-! ## Go errors -/

/-- The error values of the key/signature library.  The named
constructors correspond one-to-one to the package-level error
variables of `package in_toto`; `wrap b d` is
`fmt.Errorf("%w: <d>", b)`; `hexInvalidByte`/`hexErrLength` are the
errors of `encoding/hex`; `asn1Error` is a structural error from
`encoding/asn1`; `libError` is any other error bubbled up from a
library call; `panicMsg` models a Go `panic(msg)` in the prototype
files, which aborts instead of returning an error value. -/
inductive GoError where
  | errNoPEMBlock : GoError
  | errFailedPEMParsing : GoError
  | errUnsupportedKeyType : GoError
  | errInvalidSignature : GoError
  | errInvalidKeyType : GoError
  | hexInvalidByte (c : Char) : GoError
  | hexErrLength : GoError
  | asn1Error (msg : String) : GoError
  | libError (msg : String) : GoError
  | panicMsg (msg : String) : GoError
  | wrap (base : GoError) (detail : String) : GoError
deriving DecidableEq

/-- Go `errors.Is err target` for the sentinel errors above: walk the
`%w` wrapping chain looking for the target. -/
def errorIs (e target : GoError) : Bool :=
  if e = target then true
  else
    match e with
    | .wrap b _ => errorIs b target
    | _ => false

/-- Go `hex.DecodeString` on the character list of the string: decode
hex digit pairs left to right; on the first non-hex character fail with
`hexInvalidByte` (keeping the bytes already decoded), and fail with
`hexErrLength` if one digit is left over.  Returns the decoded prefix
and the error, exactly like the Go function. -/
def hexDecodeAux : List Char → List Nat × Option GoError
  | c1 :: c2 :: rest =>
    match fromHexChar c1 with
    | none => ([], some (.hexInvalidByte c1))
    | some a =>
      match fromHexChar c2 with
      | none => ([], some (.hexInvalidByte c2))
      | some b =>
        let r := hexDecodeAux rest
        ((a * 16 + b) :: r.1, r.2)
  | [c] =>
    match fromHexChar c with
    | none => ([], some (.hexInvalidByte c))
    | some _ => ([], some .hexErrLength)
  | [] => ([], none)

/-- Go `hex.DecodeString`. -/
def hexDecodeGo (s : String) : List Nat × Option GoError :=
  hexDecodeAux s.data

/-! ## SHA-256

`crypto/sha256.Sum256` translated to `Nat` arithmetic modulo `2^32`
(FIPS 180-4).  Input and output are byte lists. -/

/-- Truncate to a 32-bit word. -/
def w32 (n : Nat) : Nat := n % 4294967296

/-- 32-bit right rotation. -/
def rotr32 (x n : Nat) : Nat := w32 ((x >>> n) ||| (x <<< (32 - n)))

/-- The 64 SHA-256 round constants. -/
def sha256K : List Nat :=
  [1116352408, 1899447441, 3049323471, 3921009573, 961987163, 1508970993,
   2453635748, 2870763221, 3624381080, 310598401, 607225278, 1426881987,
   1925078388, 2162078206, 2614888103, 3248222580, 3835390401, 4022224774,
   264347078, 604807628, 770255983, 1249150122, 1555081692, 1996064986,
   2554220882, 2821834349, 2952996808, 3210313671, 3336571891, 3584528711,
   113926993, 338241895, 666307205, 773529912, 1294757372, 1396182291,
   1695183700, 1986661051, 2177026350, 2456956037, 2730485921, 2820302411,
   3259730800, 3345764771, 3516065817, 3600352804, 4094571909, 275423344,
   430227734, 506948616, 659060556, 883997877, 958139571, 1322822218,
   1537002063, 1747873779, 1955562222, 2024104815, 2227730452, 2361852424,
   2428436474, 2756734187, 3204031479, 3329325298]

/-- The SHA-256 initial hash state. -/
def sha256H0 : List Nat :=
  [1779033703, 3144134277, 1013904242, 2773480762, 1359893119, 2600822924,
   528734635, 1541459225]

/-- Big-endian bytes of a 64-bit length field. -/
def be64 (n : Nat) : List Nat :=
  [n >>> 56 % 256, n >>> 48 % 256, n >>> 40 % 256, n >>> 32 % 256,
   n >>> 24 % 256, n >>> 16 % 256, n >>> 8 % 256, n % 256]

/-- Big-endian bytes of a 32-bit word. -/
def be32 (n : Nat) : List Nat :=
  [n >>> 24 % 256, n >>> 16 % 256, n >>> 8 % 256, n % 256]

/-- SHA-256 padding: append `0x80`, zeros to 56 mod 64, and the
bit length as a big-endian 64-bit integer. -/
def sha256Pad (msg : List Nat) : List Nat :=
  let l := msg.length
  msg ++ 128 :: List.replicate ((119 - l % 64) % 64) 0 ++ be64 (8 * l)

/-- Split the padded message into 64-byte blocks. -/
def sha256Blocks (l : List Nat) : List (List Nat) :=
  if h : l = [] then [] else l.take 64 :: sha256Blocks (l.drop 64)
termination_by l.length
decreasing_by
  simp only [List.length_drop]
  have : 0 < l.length := List.length_pos.mpr h
  omega

/-- Combine four bytes into one big-endian 32-bit word. -/
def sha256Words : List Nat → List Nat
  | b0 :: b1 :: b2 :: b3 :: rest =>
      (b0 * 16777216 + b1 * 65536 + b2 * 256 + b3) :: sha256Words rest
  | _ => []

/-- Message-schedule extension: from the 16 block words to 64 words. -/
def sha256Schedule (block : List Nat) : List Nat :=
  (List.range 48).foldl
    (fun w _ =>
      let n := w.length
      let w15 := w.getD (n - 15) 0
      let w2 := w.getD (n - 2) 0
      let s0 := rotr32 w15 7 ^^^ rotr32 w15 18 ^^^ (w15 >>> 3)
      let s1 := rotr32 w2 17 ^^^ rotr32 w2 19 ^^^ (w2 >>> 10)
      w ++ [w32 (w.getD (n - 16) 0 + s0 + w.getD (n - 7) 0 + s1)])
    block

/-- One SHA-256 compression round. -/
def sha256Round (hs : List Nat) (kw : Nat × Nat) : List Nat :=
  match hs with
  | [a, b, c, d, e, f, g, h] =>
    let s1 := rotr32 e 6 ^^^ rotr32 e 11 ^^^ rotr32 e 25
    let ch := (e &&& f) ^^^ ((e ^^^ 4294967295) &&& g)
    let temp1 := w32 (h + s1 + ch + kw.1 + kw.2)
    let s0 := rotr32 a 2 ^^^ rotr32 a 13 ^^^ rotr32 a 22
    let maj := (a &&& b) ^^^ (a &&& c) ^^^ (b &&& c)
    let temp2 := w32 (s0 + maj)
    [w32 (temp1 + temp2), a, b, c, w32 (d + temp1), e, f, g]
  | _ => hs

/-- Process one 64-byte block. -/
def sha256Block (hs : List Nat) (block : List Nat) : List Nat :=
  let ws := sha256Schedule (sha256Words block)
  let hs2 := (sha256K.zip ws).foldl sha256Round hs
  (hs.zip hs2).map fun p => w32 (p.1 + p.2)

/-- `sha256.Sum256`: the 32-byte SHA-256 digest of a byte list. -/
def sha256 (msg : List Nat) : List Nat :=
  ((sha256Blocks (sha256Pad msg)).foldl sha256Block sha256H0).flatMap be32

/-! ## Keys, signatures and key-id derivation -/

/-- `KeyVal`: the stored key material (empty string = absent). -/
structure KeyVal where
  Private : String
  Public : String
deriving DecidableEq

/-- `Key` (`keylib.go`). -/
structure Key where
  KeyId : String
  KeyIdHashAlgorithms : List String
  KeyType : String
  KeyVal : KeyVal
  Scheme : String
deriving DecidableEq

/-- `Signature` (`keylib.go`). -/
structure Signature where
  KeyId : String
  Sig : String
deriving DecidableEq

/-- The partial key map `GenerateKeyId` hashes:
`keytype`, `scheme`, `keyid_hash_algorithms` and `keyval` with only the
`public` component — deliberately not the `KeyId` field and not
`KeyVal.Private`. -/
def keyToBeHashed (k : Key) : Value :=
  .obj [("keytype", .str k.KeyType),
        ("scheme", .str k.Scheme),
        ("keyid_hash_algorithms", .arr (k.KeyIdHashAlgorithms.map .str)),
        ("keyval", .obj [("public", .str k.KeyVal.Public)])]

/-- `(k *Key) GenerateKeyId`: canonically encode the partial key map,
hash it with SHA-256 and store the lowercase-hex digest
(`fmt.Sprintf("%x", ...)`) in `KeyId`.  The subsequent `validateKey`
call of the source only checks the key and never modifies it (it is
not among the reviewed files), and the canonical encoding of the
partial map always succeeds, so the method is modelled as the pure
field update it performs. -/
def GenerateKeyId (k : Key) : Key :=
  { k with KeyId := hexEncodeStr (sha256 (strToBytes ⟨EncodeCanonical (keyToBeHashed k)⟩)) }

/-! ## Library crypto primitives -/

/-- A decoded PEM block (`encoding/pem.Block`): its type line and the
base64-decoded DER bytes. -/
structure PemBlock where
  blockType : String
  bytes : List Nat
deriving DecidableEq

/-- The runtime types `ParseKey` (via `x509.ParsePKCS8PrivateKey`,
`x509.ParsePKCS1PrivateKey`, `x509.ParsePKIXPublicKey`) can return.
RSA and ECDSA keys are opaque handles (`Nat`), Ed25519 keys are their
raw byte strings; `otherKey` is any other parsed type (the `%T` name
is carried for the error message). -/
inductive ParsedKey where
  | rsaPub (k : Nat) : ParsedKey
  | rsaPriv (k : Nat) : ParsedKey
  | ecdsaPub (k : Nat) : ParsedKey
  | ecdsaPriv (k : Nat) : ParsedKey
  | ed25519Pub (bytes : List Nat) : ParsedKey
  | ed25519Priv (bytes : List Nat) : ParsedKey
  | otherKey (typeName : String) : ParsedKey
deriving DecidableEq

/-- The `%T` formatting of a parsed key, for wrapped error details. -/
def parsedKeyTypeName : ParsedKey → String
  | .rsaPub _ => "*rsa.PublicKey"
  | .rsaPriv _ => "*rsa.PrivateKey"
  | .ecdsaPub _ => "*ecdsa.PublicKey"
  | .ecdsaPriv _ => "*ecdsa.PrivateKey"
  | .ed25519Pub _ => "ed25519.PublicKey"
  | .ed25519Priv _ => "ed25519.PrivateKey"
  | .otherKey n => n

/-- The Go standard-library and `x/crypto` primitives the repository
calls, abstracted as explicit parameters (the repository is the
authority for everything around them, not for their internals):

* `pemDecode` — `pem.Decode` (the unparsed rest is dropped by the
  callers, so only the first block is modelled);
* `ParseKey` — the repository's `ParseKey` helper, whose body is three
  library parsers tried in the order PKCS8, PKCS1, PKIX with the first
  structurally valid parse winning; `none` models its
  `ErrFailedPEMParsing` result;
* `marshalPKIX` — `x509.MarshalPKIXPublicKey`;
* `rsaPubOf`, `ecdsaPubOf`, `ed25519PubOf` — the `.Public()` method of
  the respective private keys;
* `rsaSignPSS` — `rsa.SignPSS(rand, sk, SHA256, hashed, saltlen 32)`
  (the random source is folded into the function: one fixed tape);
* `rsaVerifyPSS` — `rsa.VerifyPSS` (`none` = valid, `some msg` = its
  error);
* `ecdsaSign`/`ecdsaVerify` — `ecdsa.Sign`/`ecdsa.Verify` over the
  digest, producing/consuming the scalar pair `(r, s)`;
* `asn1MarshalEcdsa`/`asn1UnmarshalEcdsa` — `asn1.Marshal`/`Unmarshal`
  of the two-integer `EcdsaSignature` sequence;
* `ed25519Sign`/`ed25519Verify` — `ed25519.Sign`/`ed25519.Verify` on
  the raw payload. -/
structure CryptoPrims where
  pemDecode : String → Option PemBlock
  ParseKey : List Nat → Option ParsedKey
  marshalPKIX : ParsedKey → Except String (List Nat)
  rsaPubOf : Nat → Nat
  ecdsaPubOf : Nat → Nat
  ed25519PubOf : List Nat → List Nat
  rsaSignPSS : Nat → List Nat → Except String (List Nat)
  rsaVerifyPSS : Nat → List Nat → List Nat → Option String
  ecdsaSign : Nat → List Nat → Except String (Int × Int)
  ecdsaVerify : Nat → List Nat → Int → Int → Bool
  asn1MarshalEcdsa : Int → Int → List Nat
  asn1UnmarshalEcdsa : List Nat → Except String (Int × Int)
  ed25519Sign : List Nat → List Nat → List Nat
  ed25519Verify : List Nat → List Nat → List Nat → Bool

/-! ## The key store: `GeneratePublicPemBlock`, `SetKeyComponents`, `LoadKey` -/

/-- `GeneratePublicPemBlock`: `pem.EncodeToMemory` of a block with
type `PUBLIC KEY`, no headers and the given bytes — the BEGIN line,
the base64 data wrapped at 64 columns (each line newline-terminated),
and the END line.  With empty bytes only header and footer exist. -/
def GeneratePublicPemBlock (pubKeyBytes : List Nat) : String :=
  "-----BEGIN PUBLIC KEY-----\n" ++
  ⟨(chunk64Lines (b64Encode pubKeyBytes)).flatMap fun line => line ++ ['\n']⟩ ++
  "-----END PUBLIC KEY-----\n"

/-- `(k *Key) SetKeyComponents`: store the components by key family —
RSA/ECDSA with a private key: private = trimmed PEM text, public =
trimmed `GeneratePublicPemBlock` of the public DER; RSA/ECDSA without
a private key: public = the trimmed input bytes read back as text;
Ed25519: hex-encoded (trimmed) byte strings.  Unsupported key types
fail with `ErrUnsupportedKeyType`.  Afterwards the key type, scheme
and hash algorithms are stored and `GenerateKeyId` derives the id. -/
def SetKeyComponents (k : Key) (pubKeyBytes privateKeyBytes : List Nat)
    (keyType scheme : String) (keyIdHashAlgorithms : List String) : Except GoError Key :=
  if keyType = "rsa" ∨ keyType = "ecdsa" then
    let kv :=
      if privateKeyBytes.length > 0 then
        KeyVal.mk (goTrimSpace (bytesToStr privateKeyBytes))
                  (goTrimSpace (GeneratePublicPemBlock pubKeyBytes))
      else KeyVal.mk "" (goTrimSpace (bytesToStr pubKeyBytes))
    .ok (GenerateKeyId { k with KeyVal := kv, KeyType := keyType, Scheme := scheme,
                                KeyIdHashAlgorithms := keyIdHashAlgorithms })
  else if keyType = "ed25519" then
    let kv :=
      if privateKeyBytes.length > 0 then
        KeyVal.mk (goTrimSpace (hexEncodeStr privateKeyBytes))
                  (goTrimSpace (hexEncodeStr pubKeyBytes))
      else KeyVal.mk "" (goTrimSpace (hexEncodeStr pubKeyBytes))
    .ok (GenerateKeyId { k with KeyVal := kv, KeyType := keyType, Scheme := scheme,
                                KeyIdHashAlgorithms := keyIdHashAlgorithms })
  else .error (.wrap .errUnsupportedKeyType keyType)

/-- `(k *Key) LoadKey` after the file read (`pemText` is the file's
content): decode the PEM block (`ErrNoPEMBlock` if there is none),
parse the DER (`ErrFailedPEMParsing` if no parser accepts it), then
dispatch on the parsed type:

* a public RSA/ECDSA key passes the raw file text through to
  `SetKeyComponents` as the public component;
* a private RSA/ECDSA key re-marshals its public half as PKIX DER and
  passes the file text as the private component;
* Ed25519 keys pass their raw byte strings;
* anything else fails with `ErrUnsupportedKeyType`. -/
def LoadKey (P : CryptoPrims) (pemText : String) (scheme : String)
    (keyIdHashAlgorithms : List String) (k : Key) : Except GoError Key :=
  match P.pemDecode pemText with
  | none => .error .errNoPEMBlock
  | some data =>
    match P.ParseKey data.bytes with
    | none => .error .errFailedPEMParsing
    | some parsed =>
      match parsed with
      | .rsaPub _ =>
          SetKeyComponents k (strToBytes pemText) [] "rsa" scheme keyIdHashAlgorithms
      | .rsaPriv sk =>
          match P.marshalPKIX (.rsaPub (P.rsaPubOf sk)) with
          | .error m => .error (.libError m)
          | .ok pubKeyBytes =>
              SetKeyComponents k pubKeyBytes (strToBytes pemText) "rsa" scheme keyIdHashAlgorithms
      | .ed25519Pub pb =>
          SetKeyComponents k pb [] "ed25519" scheme keyIdHashAlgorithms
      | .ed25519Priv pk =>
          SetKeyComponents k (P.ed25519PubOf pk) pk "ed25519" scheme keyIdHashAlgorithms
      | .ecdsaPriv sk =>
          match P.marshalPKIX (.ecdsaPub (P.ecdsaPubOf sk)) with
          | .error m => .error (.libError m)
          | .ok pubKeyBytes =>
              SetKeyComponents k pubKeyBytes (strToBytes pemText) "ecdsa" scheme keyIdHashAlgorithms
      | .ecdsaPub _ =>
          SetKeyComponents k (strToBytes pemText) [] "ecdsa" scheme keyIdHashAlgorithms
      | .otherKey n => .error (.wrap .errUnsupportedKeyType n)

/-! ## The signature engine: `GenerateSignature`, `VerifySignature` -/

/-- `GenerateSignature` (`package in_toto`): detect the key type and
sign `signable`.

RSA/ECDSA: decode the private PEM (`ErrNoPEMBlock` when absent), parse
it, hash the payload with SHA-256, then sign — RSA-PSS with salt
length 32 for an RSA private key (`ErrInvalidKeyType` when the
declared type disagrees), ECDSA with the `(r, s)` pair marshalled as
an ASN.1 two-integer sequence for an ECDSA private key.  Note the
source's ECDSA error branch: when `ecdsa.Sign` fails the function
returns the still-zero `Signature` together with a `nil` error
(`return signature, nil`).  Any other parsed type fails with
`ErrUnsupportedKeyType`.

Ed25519: hex-decode the stored private key and sign the raw payload.

On success the signature bytes are hex-encoded into `Sig` and the
key's id is copied into `KeyId`. -/
def GenerateSignature (P : CryptoPrims) (signable : List Nat) (key : Key) :
    Except GoError Signature :=
  if key.KeyType = "rsa" ∨ key.KeyType = "ecdsa" then
    match P.pemDecode key.KeyVal.Private with
    | none => .error .errNoPEMBlock
    | some data =>
      match P.ParseKey data.bytes with
      | none => .error .errFailedPEMParsing
      | some parsedKey =>
        let hashed := sha256 signable
        match parsedKey with
        | .rsaPriv sk =>
            if key.KeyType = "rsa" then
              match P.rsaSignPSS sk hashed with
              | .error m => .error (.libError m)
              | .ok buf => .ok ⟨key.KeyId, hexEncodeStr buf⟩
            else .error .errInvalidKeyType
        | .ecdsaPriv sk =>
            if key.KeyType = "ecdsa" then
              match P.ecdsaSign sk hashed with
              | .error _ => .ok ⟨"", ""⟩
              | .ok (r, s) => .ok ⟨key.KeyId, hexEncodeStr (P.asn1MarshalEcdsa r s)⟩
            else .error .errInvalidKeyType
        | pk => .error (.wrap .errUnsupportedKeyType (parsedKeyTypeName pk))
  else if key.KeyType = "ed25519" then
    match hexDecodeGo key.KeyVal.Private with
    | (_, some e) => .error e
    | (privateHex, none) => .ok ⟨key.KeyId, hexEncodeStr (P.ed25519Sign privateHex signable)⟩
  else .error (.wrap .errUnsupportedKeyType key.KeyType)

/-- `VerifySignature` (`package in_toto`, lines 593–647): verify
`unverified` against `key` and `sig`.

RSA/ECDSA: decode the public PEM, parse it, hash the payload with
SHA-256 and hex-decode `sig.Sig` *discarding the decode error* (the
decoded prefix is used).  An RSA public key runs `rsa.VerifyPSS`,
wrapping its failure in `ErrInvalidSignature`; an ECDSA public key
first ASN.1-unmarshals the signature — returning the structural error
unwrapped when that fails — and then runs `ecdsa.Verify`, returning
the bare `ErrInvalidSignature` on failure; any other parsed type
returns an error wrapping `ErrInvalidSignature` (not
`ErrUnsupportedKeyType`).

Ed25519: hex-decode the public key and the signature, returning the
bare hex error on failure, then run `ed25519.Verify`, wrapping failure
in `ErrInvalidSignature`.

Any other `KeyType` returns an error wrapping `ErrInvalidSignature`
(not `ErrUnsupportedKeyType`). -/
def VerifySignature (P : CryptoPrims) (key : Key) (sig : Signature) (unverified : List Nat) :
    Option GoError :=
  if key.KeyType = "rsa" ∨ key.KeyType = "ecdsa" then
    match P.pemDecode key.KeyVal.Public with
    | none => some .errNoPEMBlock
    | some data =>
      match P.ParseKey data.bytes with
      | none => some .errFailedPEMParsing
      | some parsedKey =>
        let hashed := sha256 unverified
        let sigBytes := (hexDecodeGo sig.Sig).1
        match parsedKey with
        | .rsaPub pk =>
            match P.rsaVerifyPSS pk hashed sigBytes with
            | some m => some (.wrap .errInvalidSignature m)
            | none => none
        | .ecdsaPub pk =>
            match P.asn1UnmarshalEcdsa sigBytes with
            | .error m => some (.asn1Error m)
            | .ok (r, s) =>
                if P.ecdsaVerify pk hashed r s then none
                else some .errInvalidSignature
        | other => some (.wrap .errInvalidSignature ("Key has type " ++ parsedKeyTypeName other))
  else if key.KeyType = "ed25519" then
    match hexDecodeGo key.KeyVal.Public with
    | (_, some e) => some e
    | (pubHex, none) =>
      match hexDecodeGo sig.Sig with
      | (_, some e) => some e
      | (sigHex, none) =>
          if P.ed25519Verify pubHex unverified sigHex then none
          else some (.wrap .errInvalidSignature "ed25519")
  else some (.wrap .errInvalidSignature ("Key has type " ++ key.KeyType))

/-! ## The metadata model: `Metablock.Load` and the facade

`model.go` loads a document in two phases: the raw JSON is decoded
into untyped values, `signed._type` is inspected, and the signed part
is re-decoded into the concrete `Link` or `Layout` shape.  The model
operates on the already-parsed JSON `Value`; file I/O and JSON
tokenization are outside the reviewed core.  Go's `json.Unmarshal`
into a typed struct is modelled field by field: a missing field, or a
field whose JSON type does not match, leaves the Go zero value (the
decoder records a type error that `Load` discards).  The Go struct
field `Type` (json tag `_type`) is named `_type` here because `Type`
is reserved in Lean. -/

/-- `signed["_type"]` — the discriminant, when the signed part is an
object that carries one (Go: indexing a `nil` map yields `nil`). -/
def typeTag : Value → Option Value
  | .obj es => lookupVal es "_type"
  | _ => none

/-- Field of a JSON object as a raw value, `.null` when missing. -/
def getField (v : Value) (k : String) : Value :=
  match v with
  | .obj es => lookupD es k
  | _ => .null

/-- String field of a JSON object, Go zero value `""` otherwise. -/
def getStr (v : Value) (k : String) : String :=
  match getField v k with
  | .str s => s
  | _ => ""

/-- Integer field of a JSON object, Go zero value `0` otherwise. -/
def getInt (v : Value) (k : String) : Int :=
  match getField v k with
  | .int i => i
  | _ => 0

/-- Object-valued field as its entry list, `nil` map otherwise. -/
def getEntries (v : Value) (k : String) : List (String × Value) :=
  match getField v k with
  | .obj es2 => es2
  | _ => []

/-- Array-valued field, `nil` slice otherwise. -/
def getArr (v : Value) (k : String) : List Value :=
  match getField v k with
  | .arr xs => xs
  | _ => []

/-- `[]string` field: each element that is a string, zero value for
a mismatched element. -/
def getStrList (v : Value) (k : String) : List String :=
  (getArr v k).map fun x => match x with | .str s => s | _ => ""

/-- `[][]string` field (rule lists). -/
def getStrListList (v : Value) (k : String) : List (List String) :=
  (getArr v k).map fun x =>
    match x with
    | .arr ys => ys.map fun y => match y with | .str s => s | _ => ""
    | _ => []

/-- `Link` (`model.go`): one recorded step's observed inputs/outputs. -/
structure Link where
  _type : String
  Name : String
  Materials : List (String × Value)
  Products : List (String × Value)
  ByProducts : List (String × Value)
  Command : List String
  Environment : List (String × List Value)

/-- `Inspection` (`model.go`). -/
structure Inspection where
  _type : String
  Run : List String
  Name : String
  ExpectedMaterials : List (List String)
  ExpectedProducts : List (List String)

/-- `Step` (`model.go`). -/
structure Step where
  _type : String
  PubKeys : List String
  ExpectedCommand : List String
  Threshold : Int
  Name : String
  ExpectedMaterials : List (List String)
  ExpectedProducts : List (List String)

/-- `Layout` (`model.go`).  The Go fields `expires` and `readme` are
unexported, so `encoding/json` never fills them; they always hold the
zero value after loading. -/
structure Layout where
  _type : String
  Steps : List Step
  Inspect : List Inspection
  Keys : List (String × Key)
  expires : String
  readme : String

/-- `json.Unmarshal` of one signature entry. -/
def decodeSignature (v : Value) : Signature :=
  ⟨getStr v "keyid", getStr v "sig"⟩

/-- `json.Unmarshal(*rawMb["signatures"], &mb.Signatures)`: element-wise
decoding of the array, `nil` slice when the value is not an array. -/
def decodeSignatures (v : Value) : List Signature :=
  match v with
  | .arr xs => xs.map decodeSignature
  | _ => []

/-- `json.Unmarshal` of a `Key` record. -/
def decodeKey (v : Value) : Key :=
  { KeyId := getStr v "keyid"
    KeyIdHashAlgorithms := getStrList v "keyid_hash_algorithms"
    KeyType := getStr v "keytype"
    KeyVal := ⟨getStr (getField v "keyval") "private", getStr (getField v "keyval") "public"⟩
    Scheme := getStr v "scheme" }

/-- `json.Unmarshal` of the signed part into `Link`. -/
def decodeLink (v : Value) : Link :=
  { _type := getStr v "_type"
    Name := getStr v "name"
    Materials := getEntries v "materials"
    Products := getEntries v "products"
    ByProducts := getEntries v "byproducts"
    Command := getStrList v "command"
    Environment := (getEntries v "environment").map fun e =>
      (e.1, match e.2 with | .arr xs => xs | _ => []) }

/-- `json.Unmarshal` of one `Step`. -/
def decodeStep (v : Value) : Step :=
  { _type := getStr v "_type"
    PubKeys := getStrList v "pubkeys"
    ExpectedCommand := getStrList v "expected_command"
    Threshold := getInt v "threshold"
    Name := getStr v "name"
    ExpectedMaterials := getStrListList v "expected_materials"
    ExpectedProducts := getStrListList v "expected_products" }

/-- `json.Unmarshal` of one `Inspection`. -/
def decodeInspection (v : Value) : Inspection :=
  { _type := getStr v "_type"
    Run := getStrList v "run"
    Name := getStr v "name"
    ExpectedMaterials := getStrListList v "expected_materials"
    ExpectedProducts := getStrListList v "expected_products" }

/-- `json.Unmarshal` of the signed part into `Layout`. -/
def decodeLayout (v : Value) : Layout :=
  { _type := getStr v "_type"
    Steps := (getArr v "steps").map decodeStep
    Inspect := (getArr v "inspect").map decodeInspection
    Keys := (getEntries v "keys").map fun e => (e.1, decodeKey e.2)
    expires := ""
    readme := "" }

/-- The resolved signed part of a `Metablock`: the Go field is
`Signed interface` filled with either a `Link` or a `Layout` value
after `Load`; every consumer type-asserts one of the two. -/
inductive SignedDoc where
  | link (l : Link) : SignedDoc
  | layout (l : Layout) : SignedDoc

/-- `Metablock` (`model.go`). -/
structure Metablock where
  Signed : SignedDoc
  Signatures : List Signature

/-- The failure modes of `Metablock.Load`, which in the prototype
source are hard aborts rather than returned errors:
`nilDeref f` models the nil-pointer dereference of `*rawMb[f]` when
the top-level JSON lacks field `f` (or is not an object), and
`unknownDocumentType` models the explicit
`panic("The '_type' of the 'signed' part of a metadata file must be
one of 'link' or 'layout'")`. -/
inductive LoadErr where
  | nilDeref (field : String) : LoadErr
  | unknownDocumentType : LoadErr
deriving DecidableEq

/-- `(mb *Metablock) Load` after file reading and JSON parsing
(`doc` is the parsed top-level JSON value): copy the decoded
`signatures`, read `signed._type` from the untyped decoding of
`signed`, and resolve the signed part to a `Link` when `_type` is the
string `"link"`, to a `Layout` when it is `"layout"`, and abort with
the unknown-document-type panic for anything else (a missing tag, a
non-string tag, or any other string — never a silent default). -/
def Metablock.Load (doc : Value) : Except LoadErr Metablock :=
  let raw := match doc with | .obj es => es | _ => []
  match lookupVal raw "signatures" with
  | none => .error (.nilDeref "signatures")
  | some sigsRaw =>
    let sigs := decodeSignatures sigsRaw
    match lookupVal raw "signed" with
    | none => .error (.nilDeref "signed")
    | some sg =>
      match typeTag sg with
      | some (.str t) =>
        if t = "link" then .ok ⟨.link (decodeLink sg), sigs⟩
        else if t = "layout" then .ok ⟨.layout (decodeLayout sg), sigs⟩
        else .error .unknownDocumentType
      | _ => .error .unknownDocumentType

/-- `(mb *Metablock) GetSignableRepresentation`: the canonical JSON
bytes of the signed part alone, recomputed on demand.  The prototype
delegates to the external `canonicaljson` library, abstracted here as
the `marshal` parameter. -/
def Metablock.GetSignableRepresentation (marshal : SignedDoc → List Nat) (mb : Metablock) :
    List Nat :=
  marshal mb.Signed

/-- `(mb *Metablock) VerifySignature`: scan `Signatures` for the first
entry whose `KeyId` equals the probe key's (the loop breaks at the
first hit, and `sig` keeps its zero value when none matches), panic
with "No signature found for key ..." when the scan result *equals the
zero-value `Signature`*, and otherwise delegate to the signature
engine's verify on the canonical signable bytes, propagating its
outcome.  The engine and the canonical marshaller are parameters
(`verify`, `marshal`): the prototype calls its package-level
`VerifySignature` and the external `canonicaljson.Marshal`. -/
def Metablock.VerifySignature (verify : Key → Signature → List Nat → Option GoError)
    (marshal : SignedDoc → List Nat) (mb : Metablock) (key : Key) : Option GoError :=
  let sig := (mb.Signatures.find? fun s => s.KeyId = key.KeyId).getD ⟨"", ""⟩
  if sig = ⟨"", ""⟩ then
    some (.panicMsg ("No signature found for key " ++ key.KeyId))
  else
    verify key sig (Metablock.GetSignableRepresentation marshal mb)

/-! ## Support definitions for the theorems -/

/-- The key list the object branch of the canonical encoders emits:
the map's keys sorted by `sort.Strings`. -/
def sortedKeys (es : List (String × Value)) : List String :=
  List.insertionSort strLeGo (es.map Prod.fst)

/-- All scalar content of a value is whitespace-free: no string scalar
(and no object key) contains one of the six ASCII whitespace bytes,
and no integer scalar has a whitespace `string(int)` conversion (the
code points 9–13 and 32). -/
def noWsScalars : Value → Bool
  | .null => true
  | .bool _ => true
  | .int i => (goStringOfInt i).all fun c => !isWsChar c
  | .str s => s.data.all fun c => !isWsChar c
  | .arr vs => vs.attach.all fun v => noWsScalars v.1
  | .obj es => es.attach.all fun e =>
      (e.1.1.data.all fun c => !isWsChar c) && noWsScalars e.1.2
termination_by v => sizeOf v
decreasing_by
  · have := List.sizeOf_lt_of_mem v.2
    simp only [Value.arr.sizeOf_spec]
    omega
  · obtain ⟨⟨ek, ev⟩, hmem⟩ := e
    have := List.sizeOf_lt_of_mem hmem
    simp only [Value.obj.sizeOf_spec, Prod.mk.sizeOf_spec] at this ⊢
    omega

/-- A do-nothing instantiation of the library primitives, the base for
the concrete instantiations below (each theorem that depends on a
primitive's behaviour carries that behaviour as a hypothesis instead,
so the concrete instances only matter for witnesses and
counterexamples). -/
def basePrims : CryptoPrims where
  pemDecode := fun _ => none
  ParseKey := fun _ => none
  marshalPKIX := fun _ => .error "unsupported"
  rsaPubOf := id
  ecdsaPubOf := id
  ed25519PubOf := id
  rsaSignPSS := fun _ _ => .error "unsupported"
  rsaVerifyPSS := fun _ _ _ => some "crypto/rsa: verification error"
  ecdsaSign := fun _ _ => .error "unsupported"
  ecdsaVerify := fun _ _ _ _ => false
  asn1MarshalEcdsa := fun _ _ => []
  asn1UnmarshalEcdsa := fun _ => .error "asn1: structure error"
  ed25519Sign := fun _ _ => []
  ed25519Verify := fun _ _ _ => false

/-- Primitives for the Ed25519 bit-flip scenario: every Ed25519
signature check succeeds, so that any verification failure observed
with these primitives is produced by the repository's own code, not
by the crypto arithmetic. -/
def edAcceptPrims : CryptoPrims :=
  { basePrims with ed25519Verify := fun _ _ _ => true }

/-- Primitives under which an RSA round trip works: the two
single-byte DER strings `[1]`/`[2]` parse as the RSA private/public
handle `0`, signing yields `[5]` and verification accepts anything. -/
def rsaToyPrims : CryptoPrims :=
  { basePrims with
    pemDecode := fun s => some ⟨"RSA PRIVATE KEY", strToBytes s⟩
    ParseKey := fun bs =>
      if bs = [97] then some (.rsaPriv 0)
      else if bs = [98] then some (.rsaPub 0)
      else none
    rsaSignPSS := fun _ _ => .ok [5]
    rsaVerifyPSS := fun _ _ _ => none }

/-- Primitives under which `ecdsa.Sign` fails (for the signing-failure
scenario): parsing yields an ECDSA private key and signing errors. -/
def ecdsaFailPrims : CryptoPrims :=
  { basePrims with
    pemDecode := fun s => some ⟨"EC PRIVATE KEY", strToBytes s⟩
    ParseKey := fun bs => if bs = [97] then some (.ecdsaPriv 0) else none
    ecdsaSign := fun _ _ => .error "entropy source failure" }

/-- Primitives for the key-loading scenario: the input parses as a
PKIX RSA public key whose DER is the single byte `0x30`. -/
def rsaPubLoadPrims : CryptoPrims :=
  { basePrims with
    pemDecode := fun _ => some ⟨"RSA PUBLIC KEY", [48]⟩
    ParseKey := fun bs => if bs = [48] then some (.rsaPub 0) else none
    marshalPKIX := fun k => if k = .rsaPub 0 then .ok [48] else .error "unsupported" }

/-- The stored key material of a successfully loaded key. -/
def loadedKeyVal : Except GoError Key → Option KeyVal
  | .ok k => some k.KeyVal
  | .error _ => none

/-- The hypotheses of the sign-then-verify round trip for one key:
the library primitives behave as the respective Go functions do on
well-formed key material of that family (signing succeeds and
verifying a signature produced with the matching secret succeeds —
for ECDSA additionally that `asn1.Unmarshal` inverts `asn1.Marshal` —
and signatures are byte strings), and the key's stored components
carry that material.  Everything else — hex round-tripping, hashing,
control flow, error plumbing — is the repository's own code and is
proved, not assumed. -/
def SignVerifyOk (P : CryptoPrims) (key : Key) (payload : List Nat) : Prop :=
  (key.KeyType = "rsa" ∧
    ∃ dPriv dPub sk pk s,
      P.pemDecode key.KeyVal.Private = some dPriv ∧
      P.ParseKey dPriv.bytes = some (.rsaPriv sk) ∧
      P.pemDecode key.KeyVal.Public = some dPub ∧
      P.ParseKey dPub.bytes = some (.rsaPub pk) ∧
      P.rsaSignPSS sk (sha256 payload) = .ok s ∧
      (∀ b ∈ s, b < 256) ∧
      P.rsaVerifyPSS pk (sha256 payload) s = none) ∨
  (key.KeyType = "ecdsa" ∧
    ∃ dPriv dPub sk pk r s,
      P.pemDecode key.KeyVal.Private = some dPriv ∧
      P.ParseKey dPriv.bytes = some (.ecdsaPriv sk) ∧
      P.pemDecode key.KeyVal.Public = some dPub ∧
      P.ParseKey dPub.bytes = some (.ecdsaPub pk) ∧
      P.ecdsaSign sk (sha256 payload) = .ok (r, s) ∧
      (∀ b ∈ P.asn1MarshalEcdsa r s, b < 256) ∧
      P.asn1UnmarshalEcdsa (P.asn1MarshalEcdsa r s) = .ok (r, s) ∧
      P.ecdsaVerify pk (sha256 payload) r s = true) ∨
  (key.KeyType = "ed25519" ∧
    ∃ priv pub,
      hexDecodeGo key.KeyVal.Private = (priv, none) ∧
      hexDecodeGo key.KeyVal.Public = (pub, none) ∧
      (∀ b ∈ P.ed25519Sign priv payload, b < 256) ∧
      P.ed25519Verify pub payload (P.ed25519Sign priv payload) = true)

/-- Primitives whose parse result is an ECDSA public key (handle `0`)
for the single-byte DER `[98]`. -/
def ecdsaPubPrims : CryptoPrims :=
  { basePrims with
    pemDecode := fun s => some ⟨"PUBLIC KEY", strToBytes s⟩
    ParseKey := fun bs => if bs = [98] then some (.ecdsaPub 0) else none }

/-- Primitives whose parse result depends on the single DER byte:
`[1]`–`[6]` parse as the six supported parsed-key shapes.  Used to
exercise every branch of `LoadKey`. -/
def multiParsePrims : CryptoPrims :=
  { basePrims with
    pemDecode := fun s => some ⟨"X", strToBytes s⟩
    ParseKey := fun bs =>
      if bs = [1] then some (.rsaPub 0)
      else if bs = [2] then some (.rsaPriv 0)
      else if bs = [3] then some (.ecdsaPub 0)
      else if bs = [4] then some (.ecdsaPriv 0)
      else if bs = [5] then some (.ed25519Pub [7])
      else if bs = [6] then some (.ed25519Priv [7, 8])
      else none
    marshalPKIX := fun _ => .ok [48]
    ed25519PubOf := fun _ => [9] }

/-- A PEM file carrying a PKIX RSA public key under a non-standard
(`RSA PUBLIC KEY`) header — `pem.Decode` and `x509.ParsePKIXPublicKey`
do not inspect the header text, so such a file is accepted. -/
def rsaPubPemInput : String :=
  "-----BEGIN RSA PUBLIC KEY-----\nMA==\n-----END RSA PUBLIC KEY-----\n"

/-! # Theorems

## General lemmas about the embedded primitives -/

theorem fromHexChar_hexDigitChar : ∀ n < 16, fromHexChar (hexDigitChar n) = some n := by
  decide

theorem hexDecodeAux_hexEncode : ∀ bs : List Nat, (∀ b ∈ bs, b < 256) →
    hexDecodeAux (bs.flatMap fun b => [hexDigitChar (b / 16 % 16), hexDigitChar (b % 16)]) =
      (bs, none)
  | [], _ => rfl
  | b :: t, h => by
    have h1 := fromHexChar_hexDigitChar (b / 16 % 16) (by omega)
    have h2 := fromHexChar_hexDigitChar (b % 16) (by omega)
    have hb : b < 256 := h b (List.mem_cons_self b t)
    have ih := hexDecodeAux_hexEncode t fun x hx => h x (List.mem_cons_of_mem _ hx)
    have hcons : (b :: t).flatMap (fun b => [hexDigitChar (b / 16 % 16), hexDigitChar (b % 16)]) =
        hexDigitChar (b / 16 % 16) :: hexDigitChar (b % 16) ::
          t.flatMap (fun b => [hexDigitChar (b / 16 % 16), hexDigitChar (b % 16)]) := by
      simp
    rw [hcons]
    simp only [hexDecodeAux, h1, h2, ih]
    have hsplit : b / 16 % 16 * 16 + b % 16 = b := by omega
    rw [hsplit]

/-- `hex.DecodeString` inverts `hex.EncodeToString` on byte slices. -/
theorem hexDecodeGo_hexEncodeStr (bs : List Nat) (h : ∀ b ∈ bs, b < 256) :
    hexDecodeGo (hexEncodeStr bs) = (bs, none) :=
  hexDecodeAux_hexEncode bs h

/-- Every error `hex.DecodeString` produces is an invalid-byte or an
odd-length error. -/
theorem hexDecodeAux_err : ∀ l ds e, hexDecodeAux l = (ds, some e) →
    (∃ c, e = GoError.hexInvalidByte c) ∨ e = GoError.hexErrLength := by
  intro l
  induction l using hexDecodeAux.induct with
  | case1 c1 c2 rest hc1 =>
    intro ds e h
    simp [hexDecodeAux, hc1] at h
    exact Or.inl ⟨c1, h.2.symm⟩
  | case2 c1 c2 rest a hc1 hc2 =>
    intro ds e h
    simp [hexDecodeAux, hc1, hc2] at h
    exact Or.inl ⟨c2, h.2.symm⟩
  | case3 c1 c2 rest a hc1 b hc2 ih =>
    intro ds e h
    simp only [hexDecodeAux, hc1, hc2] at h
    have h2 : (hexDecodeAux rest).2 = some e := by
      have := congrArg Prod.snd h
      simpa using this
    exact ih (hexDecodeAux rest).1 e (by rw [← h2])
  | case4 c hc =>
    intro ds e h
    simp [hexDecodeAux, hc] at h
    exact Or.inl ⟨c, h.2.symm⟩
  | case5 c a hc =>
    intro ds e h
    simp [hexDecodeAux, hc] at h
    exact Or.inr h.2.symm
  | case6 =>
    intro ds e h
    simp [hexDecodeAux] at h

/-- Hex-decoding errors never satisfy `errors.Is(err, ErrInvalidSignature)`. -/
theorem hex_err_not_invalidSignature (e : GoError)
    (h : (∃ c, e = GoError.hexInvalidByte c) ∨ e = GoError.hexErrLength) :
    errorIs e .errInvalidSignature = false := by
  rcases h with ⟨c, rfl⟩ | rfl <;> simp [errorIs]

theorem lookupVal_eq_some_mem :
    ∀ (es : List (String × Value)) (k : String) (v : Value),
      lookupVal es k = some v → (k, v) ∈ es
  | [], k, v => by
    intro h
    simp [lookupVal] at h
  | (a, w) :: t, k, v => by
    intro h
    simp only [lookupVal] at h
    by_cases hak : a = k
    · subst hak
      simp at h
      subst h
      exact List.mem_cons_self _ _
    · simp [hak] at h
      exact List.mem_cons_of_mem _ (lookupVal_eq_some_mem t k v h)

theorem mem_keys_exists_lookupVal :
    ∀ (es : List (String × Value)) (k : String), k ∈ es.map Prod.fst →
      ∃ v, lookupVal es k = some v
  | [], k => by
    intro h
    simp at h
  | (a, w) :: t, k => by
    intro h
    by_cases hak : a = k
    · exact ⟨w, by simp [lookupVal, hak]⟩
    · simp only [List.map_cons, List.mem_cons] at h
      rcases h with h | h
      · exact absurd h.symm hak
      · obtain ⟨v, hv⟩ := mem_keys_exists_lookupVal t k h
        exact ⟨v, by simp [lookupVal, hak, hv]⟩

/-- Assoc-list lookup is invariant under permutation when the keys are
distinct (the content equality behind Go's unordered maps). -/
theorem lookupVal_perm {e1 e2 : List (String × Value)} (p : e1.Perm e2)
    (hnd : (e1.map Prod.fst).Nodup) (k : String) :
    lookupVal e1 k = lookupVal e2 k := by
  induction p with
  | nil => rfl
  | cons x p ih =>
    obtain ⟨a, v⟩ := x
    simp only [List.map_cons, List.nodup_cons] at hnd
    by_cases hak : a = k
    · simp [lookupVal, hak]
    · simp [lookupVal, hak, ih hnd.2]
  | swap x y l =>
    obtain ⟨a, v⟩ := x
    obtain ⟨b, w⟩ := y
    simp only [List.map_cons, List.nodup_cons, List.mem_cons] at hnd
    have hba : b ≠ a := fun h => hnd.1 (Or.inl h)
    by_cases hak : a = k
    · have hbk : ¬b = k := fun h => hba (h.trans hak.symm)
      simp [lookupVal, hak, hbk]
    · by_cases hbk : b = k <;> simp [lookupVal, hak, hbk]
  | trans p q ih1 ih2 =>
    exact (ih1 hnd).trans (ih2 ((p.map Prod.fst).nodup_iff.mp hnd))

theorem utf8Bytes_ascii {c : Char} (h : c.toNat < 128) : utf8Bytes c = [c.toNat] := by
  simp [utf8Bytes, h]

theorem flatMap_utf8_ascii : ∀ l : List Char, (∀ c ∈ l, c.toNat < 128) →
    l.flatMap utf8Bytes = l.map Char.toNat
  | [], _ => rfl
  | c :: t, h => by
    simp only [List.flatMap_cons, List.map_cons, utf8Bytes_ascii (h c (List.mem_cons_self c t)),
      List.singleton_append, List.cons.injEq, true_and]
    exact flatMap_utf8_ascii t fun x hx => h x (List.mem_cons_of_mem _ hx)

/-- On ASCII text, `[]byte(s)` is the character-wise code-point list. -/
theorem strToBytes_ascii (s : String) (h : ∀ c ∈ s.data, c.toNat < 128) :
    strToBytes s = s.data.map Char.toNat :=
  flatMap_utf8_ascii s.data h

/-- On ASCII text, `string([]byte(s))` is the identity. -/
theorem bytesToStr_strToBytes (s : String) (h : ∀ c ∈ s.data, c.toNat < 128) :
    bytesToStr (strToBytes s) = s := by
  unfold bytesToStr
  rw [strToBytes_ascii s h, List.map_map]
  have hmap : s.data.map ((fun b => Char.ofNat b) ∘ Char.toNat) = s.data := by
    rw [show ((fun b => Char.ofNat b) ∘ Char.toNat) = fun c => Char.ofNat c.toNat from rfl]
    calc s.data.map (fun c => Char.ofNat c.toNat) = s.data.map (fun c => c) := by
          exact List.map_congr_left fun c _ => Char.ofNat_toNat c
      _ = s.data := List.map_id _
  rw [hmap]

theorem dropWhile_eq_self_of_all {p : Char → Bool} :
    ∀ l : List Char, l.all (fun c => !p c) = true → l.dropWhile p = l
  | [], _ => rfl
  | c :: t, h => by
    simp only [List.all_cons, Bool.and_eq_true, Bool.not_eq_true'] at h
    simp [List.dropWhile_cons, h.1]

/-- `strings.TrimSpace` leaves a string with no whitespace characters
unchanged. -/
theorem goTrimSpace_eq_self (s : String) (h : s.data.all (fun c => !goIsSpace c) = true) :
    goTrimSpace s = s := by
  unfold goTrimSpace
  rw [dropWhile_eq_self_of_all s.data h,
    dropWhile_eq_self_of_all s.data.reverse (by simpa using h), List.reverse_reverse]

theorem hexDigitChar_not_space : ∀ n < 16, goIsSpace (hexDigitChar n) = false := by
  decide

theorem hexDigitChar_lower_hex :
    ∀ n < 16, (('0' ≤ hexDigitChar n && hexDigitChar n ≤ '9') ||
      ('a' ≤ hexDigitChar n && hexDigitChar n ≤ 'f')) = true := by
  decide

theorem hexEncodeStr_data (bs : List Nat) :
    (hexEncodeStr bs).data = bs.flatMap fun b => [hexDigitChar (b / 16 % 16), hexDigitChar (b % 16)] :=
  rfl

/-- `hex.EncodeToString` output is all lowercase hex digits. -/
theorem isLowerHexStr_hexEncodeStr (bs : List Nat) : isLowerHexStr (hexEncodeStr bs) = true := by
  unfold isLowerHexStr
  rw [hexEncodeStr_data, List.all_eq_true]
  intro c hc
  rw [List.mem_flatMap] at hc
  obtain ⟨b, _, hc⟩ := hc
  simp only [List.mem_cons, List.mem_singleton] at hc
  rcases hc with rfl | rfl | h
  · exact hexDigitChar_lower_hex _ (by omega)
  · exact hexDigitChar_lower_hex _ (by omega)
  · cases h

/-- `hex.EncodeToString` output carries no whitespace, so the
`TrimSpace` around it in `SetKeyComponents` is the identity. -/
theorem goTrimSpace_hexEncodeStr (bs : List Nat) :
    goTrimSpace (hexEncodeStr bs) = hexEncodeStr bs := by
  apply goTrimSpace_eq_self
  rw [hexEncodeStr_data, List.all_eq_true]
  intro c hc
  rw [List.mem_flatMap] at hc
  obtain ⟨b, _, hc⟩ := hc
  simp only [List.mem_cons, List.mem_singleton] at hc
  rcases hc with rfl | rfl | h
  · simp [hexDigitChar_not_space _ (by omega : b / 16 % 16 < 16)]
  · simp [hexDigitChar_not_space _ (by omega : b % 16 < 16)]
  · cases h

/-! ## C1 — unsupported key types in `VerifySignature` -/

/-- **C1** (code-bug evaluation): for a key whose `KeyType` is not one
of rsa/ecdsa/ed25519 (here `"dsa"`), `VerifySignature` does **not**
fail with the dedicated `ErrUnsupportedKeyType`; it returns an error
wrapping `ErrInvalidSignature` ("Key has type dsa"), so the error
value satisfies `errors.Is(err, ErrInvalidSignature)` and not
`errors.Is(err, ErrUnsupportedKeyType)` — the caller cannot
distinguish "check ran and failed" from "check could not run" by the
error value, contrary to the claim and to the declared purpose of the
two error variables. -/
theorem c1_unsupported_keytype_conflated_with_invalid_signature :
    VerifySignature basePrims ⟨"kid", ["sha256"], "dsa", ⟨"", ""⟩, "dsa-sha1"⟩
        ⟨"kid", "deadbeef"⟩ [104, 105] =
      some (.wrap .errInvalidSignature "Key has type dsa") ∧
    errorIs (.wrap .errInvalidSignature "Key has type dsa") .errUnsupportedKeyType = false ∧
    errorIs (.wrap .errInvalidSignature "Key has type dsa") .errInvalidSignature = true := by
  exact ⟨by decide, by decide, by decide⟩

/-! ## C2 — integer canonical encoding -/

/-- **C2** (code-bug evaluation): the `case int` branch of
`_encode_canonical` writes Go's `string(objAsserted)` — the UTF-8
string of the *code point* — instead of the decimal digits, so the
integer 65 encodes to the single byte `'A'` (0x41) and not to the two
bytes `"65"`. -/
theorem c2_integer_encoded_as_code_point_not_decimal :
    _encode_canonical (.int 65) = ['A'] ∧
    ['A'] ≠ ['6', '5'] ∧
    (∀ i : Int, _encode_canonical (.int i) = goStringOfInt i) := by
  refine ⟨?_, by decide, fun i => ?_⟩
  · simp only [_encode_canonical]
    decide
  · simp [_encode_canonical]

/-! ## C3 — key-id derivation -/

/-- **C3**: the derived `KeyId` is the lowercase-hex SHA-256 digest of
the canonical encoding of the partial key map
`(keytype, scheme, keyid_hash_algorithms, keyval.public)`; any two
keys agreeing on those four fields — in particular keys differing only
in `KeyId` and in the private component — derive the same id, and
re-running `GenerateKeyId` on an already-populated key is the
identity. -/
theorem c3_keyid_derivation (k k2 : Key)
    (ht : k2.KeyType = k.KeyType) (hs : k2.Scheme = k.Scheme)
    (ha : k2.KeyIdHashAlgorithms = k.KeyIdHashAlgorithms)
    (hp : k2.KeyVal.Public = k.KeyVal.Public) :
    (GenerateKeyId k).KeyId =
      hexEncodeStr (sha256 (strToBytes ⟨EncodeCanonical (keyToBeHashed k)⟩)) ∧
    (GenerateKeyId k2).KeyId = (GenerateKeyId k).KeyId ∧
    GenerateKeyId (GenerateKeyId k) = GenerateKeyId k := by
  refine ⟨rfl, ?_, rfl⟩
  simp only [GenerateKeyId, keyToBeHashed, ht, hs, ha, hp]

/-- Witness for C3 at two concrete keys that differ exactly in
`KeyId` and in the private component. -/
theorem c3_keyid_derivation_witness :
    (GenerateKeyId ⟨"oldid", ["sha256", "sha512"], "rsa",
        ⟨"OTHERPRIV", "PUBPEM"⟩, "rsassa-pss-sha256"⟩).KeyId =
      (GenerateKeyId ⟨"", ["sha256", "sha512"], "rsa",
        ⟨"PRIVPEM", "PUBPEM"⟩, "rsassa-pss-sha256"⟩).KeyId ∧
    GenerateKeyId (GenerateKeyId ⟨"", ["sha256", "sha512"], "rsa",
        ⟨"PRIVPEM", "PUBPEM"⟩, "rsassa-pss-sha256"⟩) =
      GenerateKeyId ⟨"", ["sha256", "sha512"], "rsa",
        ⟨"PRIVPEM", "PUBPEM"⟩, "rsassa-pss-sha256"⟩ :=
  ⟨(c3_keyid_derivation _ _ rfl rfl rfl rfl).2.1,
   (c3_keyid_derivation ⟨"", ["sha256", "sha512"], "rsa",
      ⟨"PRIVPEM", "PUBPEM"⟩, "rsassa-pss-sha256"⟩ _ rfl rfl rfl rfl).2.2⟩

/-! ## C10 — `GenerateSignature` on ECDSA signing failure -/

/-- **C10**: when the elliptic-curve signing step fails for an ECDSA
key, `GenerateSignature` returns the zero-value `Signature` together
with a `nil` error (`return signature, nil`), so the `Sig` field is
the hex encoding of an empty byte buffer (the empty string) and the
`KeyId` field is empty too: a `nil` error does not guarantee actual
signature bytes. -/
theorem c10_ecdsa_sign_failure_returns_nil_error (P : CryptoPrims)
    (payload : List Nat) (key : Key) (blk : PemBlock) (sk : Nat) (msg : String)
    (htype : key.KeyType = "ecdsa")
    (hpem : P.pemDecode key.KeyVal.Private = some blk)
    (hparse : P.ParseKey blk.bytes = some (.ecdsaPriv sk))
    (hsign : P.ecdsaSign sk (sha256 payload) = .error msg) :
    GenerateSignature P payload key = .ok ⟨"", ""⟩ ∧
    (Signature.mk "" "").Sig = hexEncodeStr [] := by
  refine ⟨?_, rfl⟩
  simp only [GenerateSignature, htype, hpem, hparse, hsign]
  simp

/-- Witness for C10: concrete primitives whose `ecdsa.Sign` fails. -/
theorem c10_ecdsa_sign_failure_returns_nil_error_witness :
    GenerateSignature ecdsaFailPrims [104]
      ⟨"kid", ["sha256"], "ecdsa", ⟨"a", "b"⟩, "ecdsa-sha2-nistp256"⟩ = .ok ⟨"", ""⟩ :=
  (c10_ecdsa_sign_failure_returns_nil_error ecdsaFailPrims [104]
    ⟨"kid", ["sha256"], "ecdsa", ⟨"a", "b"⟩, "ecdsa-sha2-nistp256"⟩
    ⟨"EC PRIVATE KEY", [97]⟩ 0 "entropy source failure"
    rfl (by decide) (by decide) rfl).1

/-! ## C4 — single-bit flips in the signature hex string -/

/-- **C4** (counterexample): an ed25519 key (public `"aa"`) and a
signature hex string `"00"` that verifies successfully under
primitives whose ed25519 check accepts; flipping one bit of the first
character (`'0'` = 0x30 becomes `'p'` = 0x70, bit 6) yields `"p0"`,
and re-verifying fails with the hex invalid-byte error — a structural
decoding error that does not satisfy
`errors.Is(err, ErrInvalidSignature)` — contradicting "fails with
InvalidSignature, never a structural error". -/
theorem c4_counterexample_bitflip_yields_hex_error :
    VerifySignature edAcceptPrims ⟨"kid", ["sha256"], "ed25519", ⟨"", "aa"⟩, "ed25519"⟩
        ⟨"kid", "00"⟩ [104, 105] = none ∧
    ('p').toNat = ('0').toNat ^^^ 64 ∧
    VerifySignature edAcceptPrims ⟨"kid", ["sha256"], "ed25519", ⟨"", "aa"⟩, "ed25519"⟩
        ⟨"kid", "p0"⟩ [104, 105] = some (.hexInvalidByte 'p') ∧
    errorIs (.hexInvalidByte 'p') .errInvalidSignature = false :=
  ⟨by decide, by decide, by decide, by decide⟩

/-- **C4** (amended): a corrupted signature string makes verification
fail, but the failure value depends on the path — the ed25519 path
returns the raw hex-decoding error whenever the signature string fails
to decode (regardless of the crypto primitives, which are never
consulted), the ECDSA path returns the raw ASN.1 structural error
whenever unmarshalling the decoded bytes fails, and only the RSA path
always reports `nil` or an error wrapping `ErrInvalidSignature`. -/
theorem c4_amended_error_paths (P : CryptoPrims) (key : Key) (sig : Signature)
    (payload : List Nat) :
    (∀ pub ds e, key.KeyType = "ed25519" →
       hexDecodeGo key.KeyVal.Public = (pub, none) →
       hexDecodeGo sig.Sig = (ds, some e) →
       VerifySignature P key sig payload = some e ∧
       errorIs e .errInvalidSignature = false) ∧
    (∀ blk pk m, key.KeyType = "ecdsa" →
       P.pemDecode key.KeyVal.Public = some blk →
       P.ParseKey blk.bytes = some (.ecdsaPub pk) →
       P.asn1UnmarshalEcdsa (hexDecodeGo sig.Sig).1 = .error m →
       VerifySignature P key sig payload = some (.asn1Error m) ∧
       errorIs (.asn1Error m) .errInvalidSignature = false) ∧
    (∀ blk pk, key.KeyType = "rsa" →
       P.pemDecode key.KeyVal.Public = some blk →
       P.ParseKey blk.bytes = some (.rsaPub pk) →
       VerifySignature P key sig payload = none ∨
       ∃ d, VerifySignature P key sig payload = some (.wrap .errInvalidSignature d)) := by
  refine ⟨?_, ?_, ?_⟩
  · intro pub ds e htype hpub hsig
    refine ⟨?_, hex_err_not_invalidSignature e (hexDecodeAux_err sig.Sig.data ds e hsig)⟩
    simp only [VerifySignature, htype, hpub, hsig]
    simp
  · intro blk pk m htype hpem hparse hasn1
    refine ⟨?_, by simp [errorIs]⟩
    simp only [VerifySignature, htype, hpem, hparse, hasn1]
    simp
  · intro blk pk htype hpem hparse
    simp only [VerifySignature, htype, hpem, hparse]
    simp only [true_or, if_true]
    cases hverify : P.rsaVerifyPSS pk (sha256 payload) (hexDecodeGo sig.Sig).1 with
    | none => exact Or.inl rfl
    | some m => exact Or.inr ⟨m, rfl⟩

/-- Witness for C4 (amended) on all three paths. -/
theorem c4_amended_error_paths_witness :
    (VerifySignature basePrims ⟨"kid", ["sha256"], "ed25519", ⟨"", "aa"⟩, "ed25519"⟩
        ⟨"kid", "zz"⟩ [104] = some (.hexInvalidByte 'z') ∧
     errorIs (.hexInvalidByte 'z') .errInvalidSignature = false) ∧
    (VerifySignature ecdsaPubPrims ⟨"kid", ["sha256"], "ecdsa", ⟨"", "b"⟩, "ecdsa-sha2-nistp256"⟩
        ⟨"kid", "00"⟩ [104] = some (.asn1Error "asn1: structure error") ∧
     errorIs (.asn1Error "asn1: structure error") .errInvalidSignature = false) ∧
    (VerifySignature rsaToyPrims ⟨"kid", ["sha256"], "rsa", ⟨"a", "b"⟩, "rsassa-pss-sha256"⟩
        ⟨"kid", "00"⟩ [104] = none ∨
     ∃ d, VerifySignature rsaToyPrims ⟨"kid", ["sha256"], "rsa", ⟨"a", "b"⟩, "rsassa-pss-sha256"⟩
        ⟨"kid", "00"⟩ [104] = some (.wrap .errInvalidSignature d)) :=
  ⟨(c4_amended_error_paths basePrims _ _ _).1 [170] [] (.hexInvalidByte 'z')
      rfl (by decide) (by decide),
   (c4_amended_error_paths ecdsaPubPrims _ _ _).2.1 ⟨"PUBLIC KEY", [98]⟩ 0
      "asn1: structure error" rfl (by decide) (by decide) rfl,
   (c4_amended_error_paths rsaToyPrims _ _ _).2.2 ⟨"RSA PRIVATE KEY", [98]⟩ 0
      rfl (by decide) (by decide)⟩

/-! ## C8 — `Metablock.VerifySignature` -/

/-- **C8** (counterexample): the signatures list contains an entry
whose `keyid` equals the probe key's key id (both empty), yet
`Metablock.VerifySignature` reports "no signature found" instead of
delegating to the engine (which here accepts everything): the scan
result is compared against the zero-value `Signature`, and a matching
entry that *is* the zero value is treated as "not found". -/
theorem c8_counterexample_zero_value_matching_signature :
    ((Signature.mk "" "").KeyId = (Key.mk "" [] "rsa" ⟨"", ""⟩ "").KeyId ∧
     Signature.mk "" "" ∈ (Metablock.mk (.link (decodeLink .null)) [⟨"", ""⟩]).Signatures) ∧
    Metablock.VerifySignature (fun _ _ _ => none) (fun _ => [])
        ⟨.link (decodeLink .null), [⟨"", ""⟩]⟩ ⟨"", [], "rsa", ⟨"", ""⟩, ""⟩ =
      some (.panicMsg "No signature found for key ") :=
  ⟨⟨rfl, by decide⟩, by decide⟩

/-- **C8** (amended): `Metablock.VerifySignature` scans `Signatures`
for the first entry whose `KeyId` equals the probe key's; when no
entry matches — or when the first matching entry is the zero-value
`Signature` (empty key id and empty sig, which can only match a probe
key with empty key id) — it fails with the no-signature-found panic,
an error that is not `InvalidSignature`; otherwise it delegates to the
engine's verify on the canonical signable bytes of the signed part,
forwarding that outcome unchanged. -/
theorem c8_amended_scan_and_delegate
    (verify : Key → Signature → List Nat → Option GoError)
    (marshal : SignedDoc → List Nat) (mb : Metablock) (key : Key) :
    ((∀ s ∈ mb.Signatures, s.KeyId ≠ key.KeyId) →
       Metablock.VerifySignature verify marshal mb key =
         some (.panicMsg ("No signature found for key " ++ key.KeyId)) ∧
       errorIs (.panicMsg ("No signature found for key " ++ key.KeyId))
         .errInvalidSignature = false) ∧
    (∀ s, mb.Signatures.find? (fun t => t.KeyId = key.KeyId) = some s →
       s ≠ ⟨"", ""⟩ →
       Metablock.VerifySignature verify marshal mb key =
         verify key s (marshal mb.Signed)) := by
  constructor
  · intro h
    have hfind : mb.Signatures.find? (fun t => t.KeyId = key.KeyId) = none := by
      rw [List.find?_eq_none]
      intro s hs
      simpa using h s hs
    refine ⟨?_, by simp [errorIs]⟩
    simp [Metablock.VerifySignature, hfind]
  · intro s hfind hne
    simp [Metablock.VerifySignature, hfind, hne, Metablock.GetSignableRepresentation]

/-- Witness for C8 (amended): one metablock whose only signature bears
key id `"k1"`, probed with a key of id `"k2"` (not found) and with a
key of id `"k1"` (delegation to an engine that accepts). -/
theorem c8_amended_scan_and_delegate_witness :
    (Metablock.VerifySignature (fun _ _ _ => none) (fun _ => [])
        ⟨.link (decodeLink .null), [⟨"k1", "aa"⟩]⟩ ⟨"k2", [], "rsa", ⟨"", ""⟩, ""⟩ =
      some (.panicMsg "No signature found for key k2") ∧
     errorIs (.panicMsg "No signature found for key k2") .errInvalidSignature = false) ∧
    Metablock.VerifySignature (fun _ _ _ => none) (fun _ => [])
        ⟨.link (decodeLink .null), [⟨"k1", "aa"⟩]⟩ ⟨"k1", [], "rsa", ⟨"", ""⟩, ""⟩ = none :=
  ⟨(c8_amended_scan_and_delegate (fun _ _ _ => none) (fun _ => [])
      ⟨.link (decodeLink .null), [⟨"k1", "aa"⟩]⟩ ⟨"k2", [], "rsa", ⟨"", ""⟩, ""⟩).1
      (by decide),
   ((c8_amended_scan_and_delegate (fun _ _ _ => none) (fun _ => [])
      ⟨.link (decodeLink .null), [⟨"k1", "aa"⟩]⟩ ⟨"k1", [], "rsa", ⟨"", ""⟩, ""⟩).2
      ⟨"k1", "aa"⟩ (by decide) (by decide)).trans rfl⟩

/-! ## C9 — key-material normalization in `LoadKey` -/

/-- **C9** (counterexample): a PEM file whose block header is
`RSA PUBLIC KEY` (not the PKIX `PUBLIC KEY` framing) and whose DER
parses as an RSA *public* key.  `LoadKey` stores the original file
text (trimmed) as the public component — it does **not** re-encode the
key as a PKIX `PUBLIC KEY` PEM block, and the stored text differs
from that re-encoding (`GeneratePublicPemBlock` of the same DER),
contradicting "the stored public component is the key re-encoded as a
PKIX PUBLIC KEY PEM block" for public-key inputs. -/
theorem c9_counterexample_public_input_keeps_original_framing :
    loadedKeyVal (LoadKey rsaPubLoadPrims rsaPubPemInput "rsassa-pss-sha256" ["sha256"]
        ⟨"", [], "", ⟨"", ""⟩, ""⟩) =
      some ⟨"", goTrimSpace rsaPubPemInput⟩ ∧
    goTrimSpace rsaPubPemInput ≠ goTrimSpace (GeneratePublicPemBlock [48]) ∧
    rsaPubLoadPrims.ParseKey
        ((rsaPubLoadPrims.pemDecode rsaPubPemInput).getD ⟨"", []⟩).bytes = some (.rsaPub 0) ∧
    rsaPubLoadPrims.marshalPKIX (.rsaPub 0) = .ok [48] := by
  exact ⟨by decide, by decide, by decide, rfl⟩

/-- **C9** (amended): for RSA/ECDSA *private*-key inputs the stored
public component is indeed the trimmed PKIX `PUBLIC KEY` re-encoding
(`GeneratePublicPemBlock`) of the marshalled public half, and the
private component is the trimmed input text; but for RSA/ECDSA
*public*-key inputs the stored public component is the trimmed input
text itself, whatever framing it used.  Ed25519 components are stored
as lowercase-hex strings (never PEM). -/
theorem c9_amended_loadkey_normalization (P : CryptoPrims) (pemText scheme : String)
    (algs : List String) (k : Key) (blk : PemBlock)
    (hascii : ∀ c ∈ pemText.data, c.toNat < 128)
    (hne : pemText ≠ "")
    (hpem : P.pemDecode pemText = some blk) :
    (∀ pk, P.ParseKey blk.bytes = some (.rsaPub pk) →
       loadedKeyVal (LoadKey P pemText scheme algs k) = some ⟨"", goTrimSpace pemText⟩) ∧
    (∀ pk, P.ParseKey blk.bytes = some (.ecdsaPub pk) →
       loadedKeyVal (LoadKey P pemText scheme algs k) = some ⟨"", goTrimSpace pemText⟩) ∧
    (∀ sk der, P.ParseKey blk.bytes = some (.rsaPriv sk) →
       P.marshalPKIX (.rsaPub (P.rsaPubOf sk)) = .ok der →
       loadedKeyVal (LoadKey P pemText scheme algs k) =
         some ⟨goTrimSpace pemText, goTrimSpace (GeneratePublicPemBlock der)⟩) ∧
    (∀ sk der, P.ParseKey blk.bytes = some (.ecdsaPriv sk) →
       P.marshalPKIX (.ecdsaPub (P.ecdsaPubOf sk)) = .ok der →
       loadedKeyVal (LoadKey P pemText scheme algs k) =
         some ⟨goTrimSpace pemText, goTrimSpace (GeneratePublicPemBlock der)⟩) ∧
    (∀ pb, P.ParseKey blk.bytes = some (.ed25519Pub pb) →
       loadedKeyVal (LoadKey P pemText scheme algs k) = some ⟨"", hexEncodeStr pb⟩ ∧
       isLowerHexStr (hexEncodeStr pb) = true) ∧
    (∀ pv, P.ParseKey blk.bytes = some (.ed25519Priv pv) →
       loadedKeyVal (LoadKey P pemText scheme algs k) =
         some ⟨hexEncodeStr pv, hexEncodeStr (P.ed25519PubOf pv)⟩ ∧
       isLowerHexStr (hexEncodeStr pv) = true ∧
       isLowerHexStr (hexEncodeStr (P.ed25519PubOf pv)) = true) := by
  have hid := bytesToStr_strToBytes pemText hascii
  have hdata_ne : pemText.data ≠ [] := fun hd => hne (String.ext hd)
  have hlen : 0 < (strToBytes pemText).length := by
    rw [strToBytes_ascii pemText hascii, List.length_map]
    exact List.length_pos.mpr hdata_ne
  refine ⟨?_, ?_, ?_, ?_, ?_, ?_⟩
  · intro pk hparse
    simp only [LoadKey, hpem, hparse, SetKeyComponents]
    simp [loadedKeyVal, GenerateKeyId, hid]
  · intro pk hparse
    simp only [LoadKey, hpem, hparse, SetKeyComponents]
    simp [loadedKeyVal, GenerateKeyId, hid]
  · intro sk der hparse hmarshal
    simp only [LoadKey, hpem, hparse, hmarshal, SetKeyComponents]
    simp [loadedKeyVal, GenerateKeyId, hid, hlen]
  · intro sk der hparse hmarshal
    simp only [LoadKey, hpem, hparse, hmarshal, SetKeyComponents]
    simp [loadedKeyVal, GenerateKeyId, hid, hlen]
  · intro pb hparse
    simp only [LoadKey, hpem, hparse, SetKeyComponents]
    refine ⟨?_, isLowerHexStr_hexEncodeStr pb⟩
    simp [loadedKeyVal, GenerateKeyId, goTrimSpace_hexEncodeStr]
  · intro pv hparse
    simp only [LoadKey, hpem, hparse, SetKeyComponents]
    refine ⟨?_, isLowerHexStr_hexEncodeStr pv, isLowerHexStr_hexEncodeStr _⟩
    cases pv with
    | nil =>
        simp [loadedKeyVal, GenerateKeyId, goTrimSpace_hexEncodeStr]
        rfl
    | cons b t => simp [loadedKeyVal, GenerateKeyId, goTrimSpace_hexEncodeStr]

/-- Witness for C9 (amended): the six parse shapes exercised with
`multiParsePrims` on single-byte inputs. -/
theorem c9_amended_loadkey_normalization_witness :
    (loadedKeyVal (LoadKey multiParsePrims "\x01" "s" ["sha256"] ⟨"", [], "", ⟨"", ""⟩, ""⟩) =
       some ⟨"", goTrimSpace "\x01"⟩) ∧
    (loadedKeyVal (LoadKey multiParsePrims "\x02" "s" ["sha256"] ⟨"", [], "", ⟨"", ""⟩, ""⟩) =
       some ⟨goTrimSpace "\x02", goTrimSpace (GeneratePublicPemBlock [48])⟩) ∧
    (loadedKeyVal (LoadKey multiParsePrims "\x05" "s" ["sha256"] ⟨"", [], "", ⟨"", ""⟩, ""⟩) =
       some ⟨"", hexEncodeStr [7]⟩) ∧
    (loadedKeyVal (LoadKey multiParsePrims "\x06" "s" ["sha256"] ⟨"", [], "", ⟨"", ""⟩, ""⟩) =
       some ⟨hexEncodeStr [7, 8], hexEncodeStr [9]⟩) :=
  ⟨(c9_amended_loadkey_normalization multiParsePrims "\x01" "s" ["sha256"] _ ⟨"X", [1]⟩
      (by decide) (by decide) (by decide)).1 0 (by decide),
   (c9_amended_loadkey_normalization multiParsePrims "\x02" "s" ["sha256"] _ ⟨"X", [2]⟩
      (by decide) (by decide) (by decide)).2.2.1 0 [48] (by decide) rfl,
   ((c9_amended_loadkey_normalization multiParsePrims "\x05" "s" ["sha256"] _ ⟨"X", [5]⟩
      (by decide) (by decide) (by decide)).2.2.2.2.1 [7] (by decide)).1,
   ((c9_amended_loadkey_normalization multiParsePrims "\x06" "s" ["sha256"] _ ⟨"X", [6]⟩
      (by decide) (by decide) (by decide)).2.2.2.2.2 [7, 8] (by decide)).1⟩

/-! ## C5 — `Metablock.Load` type dispatch -/

/-- **C5**: loading resolves the signed part by the `_type`
discriminant — `"link"` yields a Link-shaped result whose
materials/products/command fields come straight from the signed JSON
object, `"layout"` yields a Layout-shaped result exposing
steps/inspect/keys, and a missing, non-string, or unrecognized
discriminant aborts with the unknown-document-type failure (modelling
the source's panic) rather than defaulting to a variant. -/
theorem c5_load_resolves_by_type_tag (raw : List (String × Value)) (sigv sg : Value)
    (hsig : lookupVal raw "signatures" = some sigv)
    (hsg : lookupVal raw "signed" = some sg) :
    (typeTag sg = some (.str "link") →
       Metablock.Load (.obj raw) = .ok ⟨.link (decodeLink sg), decodeSignatures sigv⟩ ∧
       (decodeLink sg).Materials = getEntries sg "materials" ∧
       (decodeLink sg).Products = getEntries sg "products" ∧
       (decodeLink sg).Command = getStrList sg "command") ∧
    (typeTag sg = some (.str "layout") →
       Metablock.Load (.obj raw) = .ok ⟨.layout (decodeLayout sg), decodeSignatures sigv⟩ ∧
       (decodeLayout sg).Steps = (getArr sg "steps").map decodeStep ∧
       (decodeLayout sg).Inspect = (getArr sg "inspect").map decodeInspection ∧
       (decodeLayout sg).Keys = (getEntries sg "keys").map fun e => (e.1, decodeKey e.2)) ∧
    (typeTag sg ≠ some (.str "link") → typeTag sg ≠ some (.str "layout") →
       Metablock.Load (.obj raw) = .error .unknownDocumentType) := by
  refine ⟨?_, ?_, ?_⟩
  · intro htag
    refine ⟨?_, rfl, rfl, rfl⟩
    simp [Metablock.Load, hsig, hsg, htag]
  · intro htag
    refine ⟨?_, rfl, rfl, rfl⟩
    simp [Metablock.Load, hsig, hsg, htag]
  · intro hnl hny
    simp only [Metablock.Load, hsig, hsg]
    match htag : typeTag sg with
    | none => rfl
    | some (.str t) =>
      rw [htag] at hnl hny
      have ht1 : t ≠ "link" := fun h => hnl (by rw [h])
      have ht2 : t ≠ "layout" := fun h => hny (by rw [h])
      simp [ht1, ht2]
    | some .null => rfl
    | some (.bool b) => rfl
    | some (.int i) => rfl
    | some (.arr vs) => rfl
    | some (.obj es) => rfl

/-- Witness for C5: three concrete documents — `_type` `"link"`,
`"layout"`, and the unrecognized `"widget"`. -/
theorem c5_load_resolves_by_type_tag_witness :
    Metablock.Load (.obj [("signed", .obj [("_type", .str "link"), ("name", .str "s1"),
        ("command", .arr [.str "echo", .str "hi"])]), ("signatures", .arr [])]) =
      .ok ⟨.link (decodeLink (.obj [("_type", .str "link"), ("name", .str "s1"),
        ("command", .arr [.str "echo", .str "hi"])])), decodeSignatures (.arr [])⟩ ∧
    Metablock.Load (.obj [("signed", .obj [("_type", .str "layout")]), ("signatures", .arr [])]) =
      .ok ⟨.layout (decodeLayout (.obj [("_type", .str "layout")])), decodeSignatures (.arr [])⟩ ∧
    Metablock.Load (.obj [("signed", .obj [("_type", .str "widget")]), ("signatures", .arr [])]) =
      .error .unknownDocumentType := by
  refine ⟨?_, ?_, ?_⟩
  · exact ((c5_load_resolves_by_type_tag
      [("signed", .obj [("_type", .str "link"), ("name", .str "s1"),
        ("command", .arr [.str "echo", .str "hi"])]), ("signatures", .arr [])]
      (.arr [])
      (.obj [("_type", .str "link"), ("name", .str "s1"),
        ("command", .arr [.str "echo", .str "hi"])])
      rfl rfl).1 rfl).1
  · exact ((c5_load_resolves_by_type_tag
      [("signed", .obj [("_type", .str "layout")]), ("signatures", .arr [])]
      (.arr []) (.obj [("_type", .str "layout")]) rfl rfl).2.1 rfl).1
  · exact (c5_load_resolves_by_type_tag
      [("signed", .obj [("_type", .str "widget")]), ("signatures", .arr [])]
      (.arr []) (.obj [("_type", .str "widget")]) rfl rfl).2.2
      (fun h => by simp [typeTag, lookupVal] at h)
      (fun h => by simp [typeTag, lookupVal] at h)

/-! ## C7 — sign-then-verify round trip -/

/-- **C7**: for each supported key family, signing a payload with the
key's private component and verifying the produced signature against
the same payload with its public component succeeds.  The hypotheses
(`SignVerifyOk`) assume exactly that the abstracted library
primitives behave as Go's crypto libraries do on well-formed key
material of the family; everything the repository itself contributes —
hex round-tripping of the signature, SHA-256 hashing on both sides,
key-material plumbing, error handling — is proved. -/
theorem c7_sign_verify_roundtrip (P : CryptoPrims) (key : Key) (payload : List Nat)
    (hne : payload ≠ []) (h : SignVerifyOk P key payload) :
    ∃ sig, GenerateSignature P payload key = .ok sig ∧
      sig.KeyId = key.KeyId ∧
      VerifySignature P key sig payload = none := by
  rcases h with
    ⟨htype, dPriv, dPub, sk, pk, s, hpriv, hprivparse, hpub, hpubparse, hsign, hrange, hverify⟩ |
    ⟨htype, dPriv, dPub, sk, pk, r, sv, hpriv, hprivparse, hpub, hpubparse, hsign, hrange,
      hasn1, hverify⟩ |
    ⟨htype, priv, pub, hpriv, hpub, hrange, hverify⟩
  · refine ⟨⟨key.KeyId, hexEncodeStr s⟩, ?_, rfl, ?_⟩
    · simp [GenerateSignature, htype, hpriv, hprivparse, hsign]
    · simp [VerifySignature, htype, hpub, hpubparse, hexDecodeGo_hexEncodeStr s hrange, hverify]
  · refine ⟨⟨key.KeyId, hexEncodeStr (P.asn1MarshalEcdsa r sv)⟩, ?_, rfl, ?_⟩
    · simp [GenerateSignature, htype, hpriv, hprivparse, hsign]
    · simp [VerifySignature, htype, hpub, hpubparse,
        hexDecodeGo_hexEncodeStr _ hrange, hasn1, hverify]
  · refine ⟨⟨key.KeyId, hexEncodeStr (P.ed25519Sign priv payload)⟩, ?_, rfl, ?_⟩
    · simp [GenerateSignature, htype, hpriv]
    · simp [VerifySignature, htype, hpub, hexDecodeGo_hexEncodeStr _ hrange, hverify]

/-- Witness for C7 with the RSA toy primitives. -/
theorem c7_sign_verify_roundtrip_witness :
    ∃ sig, GenerateSignature rsaToyPrims [104]
        ⟨"kid", ["sha256"], "rsa", ⟨"a", "b"⟩, "rsassa-pss-sha256"⟩ = .ok sig ∧
      sig.KeyId = (Key.mk "kid" ["sha256"] "rsa" ⟨"a", "b"⟩ "rsassa-pss-sha256").KeyId ∧
      VerifySignature rsaToyPrims ⟨"kid", ["sha256"], "rsa", ⟨"a", "b"⟩, "rsassa-pss-sha256"⟩
        sig [104] = none :=
  c7_sign_verify_roundtrip rsaToyPrims
    ⟨"kid", ["sha256"], "rsa", ⟨"a", "b"⟩, "rsassa-pss-sha256"⟩ [104]
    (by decide)
    (Or.inl ⟨rfl, ⟨"RSA PRIVATE KEY", [97]⟩, ⟨"RSA PRIVATE KEY", [98]⟩, 0, 0, [5],
      by decide, by decide, by decide, by decide, rfl, by decide, rfl⟩)

/-! ## C6 — canonical encoding: whitespace, key order, determinism -/

theorem enc_arr_eq (vs : List Value) :
    _encode_canonical (.arr vs) = '[' :: commaJoin (vs.map _encode_canonical) ++ [']'] := by
  simp [_encode_canonical, List.attach_map_coe]

theorem enc_obj_eq (es : List (String × Value)) :
    _encode_canonical (.obj es) =
      '\x7b' :: commaJoin ((sortedKeys es).map fun k =>
        _encode_canonical_string k ++ ':' :: _encode_canonical (lookupD es k)) ++ ['\x7d'] := by
  simp [_encode_canonical, sortedKeys]

theorem enc_str_eq (s : String) :
    _encode_canonical (.str s) = _encode_canonical_string s := by
  simp [_encode_canonical]

theorem enc_bool_eq (b : Bool) :
    _encode_canonical (.bool b) = if b then "true".data else "false".data := by
  cases b <;> simp [_encode_canonical]

theorem enc_int_eq (i : Int) : _encode_canonical (.int i) = goStringOfInt i := by
  simp [_encode_canonical]

theorem enc_null_eq : _encode_canonical .null = "null".data := by
  simp [_encode_canonical]

theorem mem_commaJoin : ∀ (ls : List (List Char)) (x : Char), x ∈ commaJoin ls →
    x = ',' ∨ ∃ l ∈ ls, x ∈ l
  | [], x, h => by simp [commaJoin] at h
  | [l], x, h => Or.inr ⟨l, by simp, by simpa [commaJoin] using h⟩
  | a :: b :: t, x, h => by
    simp only [commaJoin, List.mem_append, List.mem_cons] at h
    rcases h with h | h | h
    · exact Or.inr ⟨a, by simp, h⟩
    · exact Or.inl h
    · rcases mem_commaJoin (b :: t) x h with h | ⟨l, hl, hx⟩
      · exact Or.inl h
      · exact Or.inr ⟨l, by simp [List.mem_cons] at hl ⊢; tauto, hx⟩

theorem encstr_no_ws (s : String) (h : s.data.all (fun c => !isWsChar c) = true) :
    (_encode_canonical_string s).all (fun c => !isWsChar c) = true := by
  rw [List.all_eq_true] at h ⊢
  intro c hc
  unfold _encode_canonical_string at hc
  rcases List.mem_cons.mp hc with rfl | hc
  · decide
  rcases List.mem_append.mp hc with hc | hc
  · obtain ⟨d, hd, hcd⟩ := List.mem_flatMap.mp hc
    by_cases hq : d = '"'
    · simp [hq] at hcd
      rcases hcd with rfl | rfl <;> decide
    · simp [hq] at hcd
      exact hcd ▸ h d hd
  · rw [List.mem_singleton] at hc
    subst hc
    decide

theorem noWs_arr_mem (vs : List Value) (h : noWsScalars (.arr vs) = true) :
    ∀ v ∈ vs, noWsScalars v = true := by
  intro v hv
  simp only [noWsScalars, List.all_eq_true] at h
  exact h ⟨v, hv⟩ (List.mem_attach _ _)

theorem noWs_obj_mem (es : List (String × Value)) (h : noWsScalars (.obj es) = true) :
    ∀ e ∈ es, (e.1.data.all fun c => !isWsChar c) = true ∧ noWsScalars e.2 = true := by
  intro e he
  simp only [noWsScalars, List.all_eq_true, Bool.and_eq_true] at h
  have := h ⟨e, he⟩ (List.mem_attach _ _)
  simpa using this

/-- The amended whitespace property: when every scalar of `v` is
whitespace-free, the canonical encoding of `v` contains no whitespace
byte (the encoder itself never inserts one). -/
theorem enc_canonical_no_ws : ∀ v, noWsScalars v = true →
    (_encode_canonical v).all (fun c => !isWsChar c) = true := by
  intro v
  induction v using _encode_canonical.induct with
  | case1 s =>
    intro h
    rw [enc_str_eq]
    exact encstr_no_ws s (by simpa [noWsScalars] using h)
  | case2 =>
    intro h
    rw [enc_bool_eq]
    decide
  | case3 b hb =>
    intro h
    rw [enc_bool_eq]
    cases b
    · decide
    · exact absurd rfl hb
  | case4 i =>
    intro h
    rw [enc_int_eq]
    simpa [noWsScalars] using h
  | case5 =>
    intro h
    rw [enc_null_eq]
    decide
  | case6 vs ih =>
    intro h
    rw [enc_arr_eq, List.all_eq_true]
    intro c hc
    rcases List.mem_cons.mp hc with rfl | hc
    · decide
    rcases List.mem_append.mp hc with hc | hc
    · rcases mem_commaJoin _ c hc with rfl | ⟨l, hl, hcl⟩
      · decide
      · obtain ⟨w, hw, rfl⟩ := List.mem_map.mp hl
        have := ih ⟨w, hw⟩ (noWs_arr_mem vs h w hw)
        rw [List.all_eq_true] at this
        exact this c hcl
    · rw [List.mem_singleton] at hc
      subst hc
      decide
  | case7 es ih =>
    intro h
    rw [enc_obj_eq, List.all_eq_true]
    intro c hc
    rcases List.mem_cons.mp hc with rfl | hc
    · decide
    rcases List.mem_append.mp hc with hc | hc
    · rcases mem_commaJoin _ c hc with rfl | ⟨l, hl, hcl⟩
      · decide
      · obtain ⟨k, hk, rfl⟩ := List.mem_map.mp hl
        have hkmem : k ∈ es.map Prod.fst :=
          ((List.perm_insertionSort strLeGo (es.map Prod.fst)).mem_iff).mp hk
        simp only [List.mem_append, List.mem_cons] at hcl
        rcases hcl with hcl | rfl | hcl
        · obtain ⟨⟨k2, v2⟩, hmem, hfst⟩ := List.mem_map.mp hkmem
          have hknw := (noWs_obj_mem es h _ hmem).1
          rw [show k2 = k from hfst] at hknw
          have := encstr_no_ws k hknw
          rw [List.all_eq_true] at this
          exact this c hcl
        · decide
        · have hv : noWsScalars (lookupD es k) = true := by
            unfold lookupD
            cases hlv : lookupVal es k with
            | none => simp [noWsScalars]
            | some v => exact (noWs_obj_mem es h _ (lookupVal_eq_some_mem es k v hlv)).2
          have := ih k hv
          rw [List.all_eq_true] at this
          exact this c hcl
    · rw [List.mem_singleton] at hc
      subst hc
      decide

/-- With distinct keys (as a Go map guarantees), the key list the
encoder emits is *strictly* increasing in byte-wise order. -/
theorem sortedKeys_strict (es : List (String × Value)) (hnd : (es.map Prod.fst).Nodup) :
    List.Sorted strLtGo (sortedKeys es) := by
  have hsorted : List.Sorted strLeGo (sortedKeys es) :=
    List.sorted_insertionSort strLeGo (es.map Prod.fst)
  have hnd2 : (sortedKeys es).Nodup :=
    ((List.perm_insertionSort strLeGo (es.map Prod.fst)).nodup_iff).mpr hnd
  have hand := List.Pairwise.and hsorted hnd2
  exact hand.imp fun hab => by
    obtain ⟨hle, hne⟩ := hab
    unfold strLeGo at hle
    unfold strLtGo
    cases hlt : charListLt _ _
    · exact absurd (String.ext (charListLt_connex _ _ hlt hle)) hne
    · rfl

/-- Encoding an object is invariant under permutation of its entry
list (map-key insertion order): the key-order determinism of the
canonical encoder. -/
theorem enc_obj_perm (e1 e2 : List (String × Value)) (p : e1.Perm e2)
    (hnd : (e1.map Prod.fst).Nodup) :
    _encode_canonical (.obj e1) = _encode_canonical (.obj e2) := by
  have hkeys : sortedKeys e1 = sortedKeys e2 := by
    apply List.eq_of_perm_of_sorted (r := strLeGo)
      (((List.perm_insertionSort strLeGo (e1.map Prod.fst)).trans (p.map Prod.fst)).trans
        (List.perm_insertionSort strLeGo (e2.map Prod.fst)).symm)
      (List.sorted_insertionSort strLeGo (e1.map Prod.fst))
      (List.sorted_insertionSort strLeGo (e2.map Prod.fst))
  rw [enc_obj_eq, enc_obj_eq, hkeys]
  have hmap : ((sortedKeys e2).map fun k =>
      _encode_canonical_string k ++ ':' :: _encode_canonical (lookupD e1 k)) =
      (sortedKeys e2).map fun k =>
      _encode_canonical_string k ++ ':' :: _encode_canonical (lookupD e2 k) := by
    apply List.map_congr_left
    intro k _
    rw [lookupD, lookupD, lookupVal_perm p hnd k]
  rw [hmap]

/-- **C6** (counterexample): the canonical value consisting of the
one-character string `" "` encodes to the three bytes `" "` quote,
space, quote — the encoding *does* contain a whitespace byte, so "for
every Canonical Value v the encoding contains no whitespace bytes" is
false as stated (string scalars pass their content through
unescaped). -/
theorem c6_counterexample_whitespace_in_string_scalar :
    _encode_canonical (.str " ") = ['"', ' ', '"'] ∧
    isWsChar ' ' = true := by
  constructor
  · simp [_encode_canonical, _encode_canonical_string]
  · decide

/-- **C6** (amended): the encoder itself introduces no whitespace —
for every value whose scalars are whitespace-free the encoding
contains no whitespace byte; in every encoded mapping (with the
distinct keys a Go map guarantees) the emitted keys are strictly
increasing in byte-wise order, joined as `"key":value` pairs with a
comma after every pair but the last (no trailing comma, no space
around the colon — the emission shape is exactly the `commaJoin`
form); and two mappings with identical entries supplied in different
insertion order encode byte-identically. -/
theorem c6_amended_encoder_properties :
    (∀ v, noWsScalars v = true →
       (_encode_canonical v).all (fun c => !isWsChar c) = true) ∧
    (∀ es : List (String × Value), (es.map Prod.fst).Nodup →
       List.Sorted strLtGo (sortedKeys es) ∧
       _encode_canonical (.obj es) =
         '\x7b' :: commaJoin ((sortedKeys es).map fun k =>
           _encode_canonical_string k ++ ':' :: _encode_canonical (lookupD es k)) ++ ['\x7d']) ∧
    (∀ e1 e2 : List (String × Value), e1.Perm e2 → (e1.map Prod.fst).Nodup →
       _encode_canonical (.obj e1) = _encode_canonical (.obj e2)) :=
  ⟨enc_canonical_no_ws,
   fun es hnd => ⟨sortedKeys_strict es hnd, enc_obj_eq es⟩,
   enc_obj_perm⟩

/-- Witness for C6 (amended) at concrete values: a whitespace-free
string scalar, a two-key object, and a two-entry permutation. -/
theorem c6_amended_encoder_properties_witness :
    ((_encode_canonical (.str "abc")).all (fun c => !isWsChar c) = true) ∧
    List.Sorted strLtGo (sortedKeys [("b", .null), ("a", .null)]) ∧
    _encode_canonical (.obj [("b", .int 1), ("a", .null)]) =
      _encode_canonical (.obj [("a", .null), ("b", .int 1)]) :=
  ⟨c6_amended_encoder_properties.1 (.str "abc") (by simp [noWsScalars]; decide),
   (c6_amended_encoder_properties.2.1 [("b", .null), ("a", .null)] (by decide)).1,
   c6_amended_encoder_properties.2.2 [("b", .int 1), ("a", .null)] [("a", .null), ("b", .int 1)]
     (List.Perm.swap ("a", Value.null) ("b", Value.int 1) []) (by decide)⟩
